import Mathlib

/-!
# TAGLINE driver: block cache (`raid_cache.c`) and client transport (`raid_client.c`)

A shallow embedding of the C sources.  Global variables become fields of an explicit
state record that every operation takes and returns.  Pointers into the slot array are
slot indices; the clock (`gettimeofday`) and the allocator (`malloc`/`calloc`) are
inputs of the operations that consult them.
-/

namespace TaglineDriver

/-! ## Constants -/

/-- Number of slots of the cache array (`raid_cache.h`). -/
def TAGLINE_CACHE_SIZE : Nat := 1024

/-- Block size in bytes (`raid_bus.h`). -/
def RAID_BLOCK_SIZE : Nat := 1024

/-! ## Machine integers -/

/-- Value of a `uint32_t` converted to `int` (two's complement, 32 bits). -/
def toInt32 (n : Nat) : Int :=
  if n % 2 ^ 32 < 2 ^ 31 then ((n % 2 ^ 32 : Nat) : Int) else ((n % 2 ^ 32 : Nat) : Int) - 2 ^ 32

/-- Value of an `int` converted to `size_t` (64 bits). -/
def toSizeT (i : Int) : Nat := (i % 2 ^ 64).toNat

/-! ## Cache data model -/

/-- The struct `CacheEntry`; `buffer` holds the bytes the C field points to. -/
structure CacheEntry where
  clkTick : Int
  disk : Nat
  blockID : Nat
  buffer : List Nat
deriving DecidableEq, Repr

/-- The globals of `raid_cache.c`.  `cache` lists the entries of slots
`0 .. initialized-1` (the only slots the code ever reads), `leastRecent` is the slot the
pointer refers to (`none` for `NULL`), `maxSize` the `int` set by `init_raid_cache`. -/
structure RaidCache where
  cache : List CacheEntry
  leastRecent : Option Nat
  maxSize : Int
deriving DecidableEq, Repr

/-- The counter `initialized`: the number of slots in use. -/
def initialized (s : RaidCache) : Nat := s.cache.length

/-- The bytes `memcpy(dst, src, n)` leaves in `dst`.  The C call is defined only when
`src` and `dst` both hold at least `n` bytes; statements about the copied bytes carry that
condition on the source as a hypothesis. -/
def memcpy (dst src : List Nat) (n : Nat) : List Nat := src.take n ++ dst.drop n

/-- The scan loop shared by `put_raid_cache` and `get_raid_cache`: the first slot
`i < initialized` with `cache[i]->disk == dsk && cache[i]->blockID == blk`. -/
def findSlot (dsk blk : Nat) : List CacheEntry → Option Nat
  | [] => none
  | e :: es =>
    if e.disk = dsk ∧ e.blockID = blk then some 0 else (findSlot dsk blk es).map (· + 1)

/-- Assignment through the pointer `cache[i]`: slot `i` becomes `f cache[i]`. -/
def updateSlot (f : CacheEntry → CacheEntry) : List CacheEntry → Nat → List CacheEntry
  | [], _ => []
  | e :: es, 0 => f e :: es
  | e :: es, i + 1 => e :: updateSlot f es i

/-- The `while` loop of `calc_least_recent` from slot `i` on: `best` is the slot
`leastRecent` refers to and `bclk` its `clkTick`. -/
def calcScan : List CacheEntry → Nat → Nat → Int → Nat
  | [], _, best, _ => best
  | e :: es, i, best, bclk =>
    if e.clkTick > bclk then calcScan es (i + 1) i e.clkTick else calcScan es (i + 1) best bclk

/-- The function `calc_least_recent`: start from `cache[0]`, then the loop. -/
def calc_least_recent (s : RaidCache) : RaidCache :=
  match s.cache with
  | [] => { s with leastRecent := none }
  | e :: es => { s with leastRecent := some (calcScan es 1 0 e.clkTick) }

/-- The function `init_raid_cache`; `callocOk` says whether `calloc` returned non-NULL.
The result is `none` when the function returns `-1`.  The pointer `leastRecent` is not
assigned here: it is `NULL` at program start and is not read before the first cold fill
assigns it. -/
def init_raid_cache (max_items : Nat) (callocOk : Bool) : Option RaidCache :=
  if callocOk then
    some { cache := [], leastRecent := none, maxSize := toInt32 (max_items * 1024) }
  else none

/-- The function `put_raid_cache`.  `now` is `tval.tv_sec` as read by `gettimeofday`,
`mallocEntry` and `mallocBuf` say whether the two `malloc` calls of the cold-miss branch
return non-NULL.  Returns the C return value and the new globals. -/
def put_raid_cache (s : RaidCache) (dsk blk : Nat) (buf : List Nat) (now : Int)
    (mallocEntry mallocBuf : Bool) : Int × RaidCache :=
  let n := toSizeT s.maxSize
  match findSlot dsk blk s.cache with
  | some i =>
    let c := updateSlot (fun e => { e with buffer := memcpy e.buffer buf n }) s.cache i
    (0, { s with cache := c })
  | none =>
    if initialized s = TAGLINE_CACHE_SIZE then
      match s.leastRecent with
      | some j =>
        let c := updateSlot (fun e =>
          { clkTick := now, disk := dsk, blockID := blk, buffer := memcpy e.buffer buf n })
          s.cache j
        (0, calc_least_recent { s with cache := c })
      | none => (0, calc_least_recent s) -- `leastRecent` is `NULL`: never the case here
    else if !mallocEntry then (-1, s)
    else if !mallocBuf then (-1, s)
    else
      let temp : CacheEntry :=
        { clkTick := now, disk := dsk, blockID := blk,
          buffer := memcpy (List.replicate n 0) buf n }
      (0, { s with
            cache := s.cache ++ [temp],
            leastRecent := if initialized s = 0 then some 0 else s.leastRecent })

/-- The function `get_raid_cache`.  Returns the bytes of the buffer whose address the C
function returns (`none` for `NULL`) and the new globals. -/
def get_raid_cache (s : RaidCache) (dsk blk : Nat) (now : Int) :
    Option (List Nat) × RaidCache :=
  match findSlot dsk blk s.cache with
  | some i =>
    let c := updateSlot (fun e => { e with clkTick := now }) s.cache i
    let s1 : RaidCache := { s with cache := c }
    let s2 : RaidCache := if s1.leastRecent = some i then calc_least_recent s1 else s1
    (s2.cache[i]?.map (·.buffer), s2)
  | none => (none, s)

/-- One call of the cache interface after initialisation, with the inputs it reads. -/
inductive CacheCall where
  | put (dsk blk : Nat) (buf : List Nat) (now : Int) (mallocEntry mallocBuf : Bool)
  | get (dsk blk : Nat) (now : Int)
deriving DecidableEq, Repr

/-- The globals after one call. -/
def stepCall (s : RaidCache) : CacheCall → RaidCache
  | .put dsk blk buf now me mb => (put_raid_cache s dsk blk buf now me mb).2
  | .get dsk blk now => (get_raid_cache s dsk blk now).2

/-- The globals after a sequence of calls, first call first. -/
def runCalls (s : RaidCache) (cs : List CacheCall) : RaidCache := cs.foldl stepCall s

/-- The clock reading consumed by a call. -/
def CacheCall.clock : CacheCall → Int
  | .put _ _ _ now _ _ => now
  | .get _ _ now => now

/-- States reachable from a successful `init_raid_cache` by `put`/`get` calls. -/
inductive Reachable : RaidCache → Prop
  | init (max_items : Nat) (s : RaidCache) (h : init_raid_cache max_items true = some s) :
      Reachable s
  | put (s : RaidCache) (dsk blk : Nat) (buf : List Nat) (now : Int) (me mb : Bool)
      (h : Reachable s) : Reachable (put_raid_cache s dsk blk buf now me mb).2
  | get (s : RaidCache) (dsk blk : Nat) (now : Int) (h : Reachable s) :
      Reachable (get_raid_cache s dsk blk now).2

/-! ## Client transport (`raid_client.c`) -/

/-- The status bit of a command word (`raid_client.c`). -/
def FAILURE_STATUS : Nat := 0x100000000

def SHIFT_FOR_REQUEST : Nat := 56

def SHIFT_FOR_BLOCKS : Nat := 48

def STRUCTURE_FOR_BLOCKS : Nat := 0xFF

/-- Request types of `raid_bus.h`. -/
def RAID_INIT : Nat := 0

def RAID_CLOSE : Nat := 1

def RAID_DISKFAIL : Nat := 7

/-- The 8 bytes of a 64-bit value, most significant first (network order). -/
def beBytes64 (x : Nat) : List Nat :=
  [x / 2 ^ 56 % 256, x / 2 ^ 48 % 256, x / 2 ^ 40 % 256, x / 2 ^ 32 % 256,
   x / 2 ^ 24 % 256, x / 2 ^ 16 % 256, x / 2 ^ 8 % 256, x % 256]

/-- The value of a byte sequence read most significant byte first. -/
def ofBE (bs : List Nat) : Nat := bs.foldl (fun acc b => acc * 256 + b) 0

/-- The bytes a `uint64_t` occupies in memory on a host that is little-endian
(`le = true`) or big-endian. -/
def objBytes (le : Bool) (x : Nat) : List Nat :=
  if le then (beBytes64 x).reverse else beBytes64 x

/-- The `uint64_t` whose memory bytes are `bs`, on a little- or big-endian host. -/
def objValue (le : Bool) (bs : List Nat) : Nat :=
  if le then ofBE bs.reverse else ofBE bs

/-- Modelled from the spec: `htonll64` of the course library header `cmpsc311_util.h`,
which is not part of the sources; host-to-network 64-bit byte-order conversion: the value
whose memory bytes on this host are the network-order bytes of `x`. -/
def htonll64 (le : Bool) (x : Nat) : Nat := objValue le (beBytes64 x)

/-- Modelled from the spec: `ntohll64` of the course library header `cmpsc311_util.h`,
which is not part of the sources; network-to-host 64-bit byte-order conversion: the value
whose network-order bytes are the memory bytes of `x` on this host. -/
def ntohll64 (le : Bool) (x : Nat) : Nat := ofBE (objBytes le x)

/-- What the environment answers during one call of `client_raid_bus_request`: the host
byte order, the return values of `inet_aton`, `socket` and `connect`, the return values of
the three `write` and the three `read` calls, and the bytes the peer delivers to the three
reads. -/
structure Env where
  littleEndian : Bool
  inet_aton : Int
  socket : Int
  connect : Int
  write1 : Int
  write2 : Int
  write3 : Int
  read1 : Int
  read2 : Int
  read3 : Int
  respOp : List Nat
  respLen : List Nat
  respBuf : List Nat
deriving DecidableEq, Repr

/-- A system call on the socket made by `client_raid_bus_request`.  A `write` records the
memory it was given and its return value, a `read` the byte count asked for and its return
value. -/
inductive IOCall where
  | connect (fd : Int)
  | write (fd : Int) (data : List Nat) (ret : Int)
  | read (fd : Int) (count : Nat) (ret : Int)
  | close (fd : Int)
deriving DecidableEq, Repr

/-- Result of one call: the returned command word, the caller's buffer afterwards, the
global `sckt` afterwards and the socket calls made, in order. -/
structure Outcome where
  ret : Nat
  buf : List Nat
  sckt : Int
  trace : List IOCall
deriving DecidableEq, Repr

/-- Lines 99-147 of `client_raid_bus_request`: the three writes, the three reads, the
conversion of the response and the close.  `tr` holds the socket calls made so far. -/
def exchange (env : Env) (sckt : Int) (op : Nat) (buf : List Nat) (requestType bufLen : Nat)
    (tr : List IOCall) : Outcome :=
  let opNet := htonll64 env.littleEndian op
  let bufLenNet := htonll64 env.littleEndian bufLen
  let t1 := tr ++ [IOCall.write sckt (objBytes env.littleEndian opNet) env.write1]
  if env.write1 ≠ 8 then
    { ret := op ||| FAILURE_STATUS, buf := buf, sckt := sckt, trace := t1 }
  else
  let t2 := t1 ++ [IOCall.write sckt (objBytes env.littleEndian bufLenNet) env.write2]
  if env.write2 ≠ 8 then
    { ret := op ||| FAILURE_STATUS, buf := buf, sckt := sckt, trace := t2 }
  else
  let t3 := t2 ++ [IOCall.write sckt (buf.take bufLen) env.write3]
  if env.write3 ≠ (bufLen : Int) then
    { ret := op ||| FAILURE_STATUS, buf := buf, sckt := sckt, trace := t3 }
  else
  let t4 := t3 ++ [IOCall.read sckt 8 env.read1]
  if env.read1 ≠ 8 then
    { ret := op ||| FAILURE_STATUS, buf := buf, sckt := sckt, trace := t4 }
  else
  let opNet2 := objValue env.littleEndian (env.respOp.take 8)
  let t5 := t4 ++ [IOCall.read sckt 8 env.read2]
  if env.read2 ≠ 8 then
    { ret := op ||| FAILURE_STATUS, buf := buf, sckt := sckt, trace := t5 }
  else
  let t6 := t5 ++ [IOCall.read sckt bufLen env.read3]
  let buf2 := memcpy buf env.respBuf (min env.read3.toNat bufLen)
  if env.read3 ≠ (bufLen : Int) then
    { ret := op ||| FAILURE_STATUS, buf := buf2, sckt := sckt, trace := t6 }
  else
  let op2 := ntohll64 env.littleEndian opNet2
  if requestType = RAID_CLOSE then
    { ret := op2, buf := buf2, sckt := -1, trace := t6 ++ [IOCall.close sckt] }
  else
    { ret := op2, buf := buf2, sckt := sckt, trace := t6 }

/-- The function `client_raid_bus_request`.  `sckt` is the global socket descriptor on
entry, `op` the request word (a `uint64_t`), `buf` the memory at the caller's buffer. -/
def client_raid_bus_request (env : Env) (sckt : Int) (op : Nat) (buf : List Nat) : Outcome :=
  let requestType := op >>> SHIFT_FOR_REQUEST
  let blks := (op >>> SHIFT_FOR_BLOCKS) &&& STRUCTURE_FOR_BLOCKS
  let bufLen := blks * RAID_BLOCK_SIZE
  if requestType = RAID_INIT then
    if env.inet_aton = 0 then
      { ret := op ||| FAILURE_STATUS, buf := buf, sckt := sckt, trace := [] }
    else if env.socket = -1 then
      { ret := op ||| FAILURE_STATUS, buf := buf, sckt := env.socket, trace := [] }
    else if env.connect = -1 then
      { ret := op ||| FAILURE_STATUS, buf := buf, sckt := env.socket,
        trace := [IOCall.connect env.socket] }
    else
      exchange env env.socket op buf requestType 0 [IOCall.connect env.socket]
  else
    exchange env sckt op buf requestType bufLen []

/-- The bytes that reached the stream: for every `write` in the trace, as many bytes of
its memory as it reports written. -/
def bytesWritten : List IOCall → List Nat
  | [] => []
  | IOCall.write _ data ret :: tr => data.take ret.toNat ++ bytesWritten tr
  | _ :: tr => bytesWritten tr

/-- The `read` and `write` calls of a trace, in order. -/
def transfers : List IOCall → List IOCall
  | [] => []
  | IOCall.write fd data ret :: tr => IOCall.write fd data ret :: transfers tr
  | IOCall.read fd count ret :: tr => IOCall.read fd count ret :: transfers tr
  | _ :: tr => transfers tr

/-- The payload length `client_raid_bus_request` uses, in the words of the protocol: 0 for
an INIT request (bits 56-63 equal to 0), else the block count (bits 48-55) times 1024. -/
def payloadLen (op : Nat) : Nat :=
  if op / 2 ^ 56 % 256 = 0 then 0 else (op / 2 ^ 48 % 256) * 1024

/-- Whether the call gets as far as the first `write`: always for a request other than
INIT, and for INIT when `inet_aton`, `socket` and `connect` succeed. -/
def connects (env : Env) (op : Nat) : Bool :=
  if op / 2 ^ 56 % 256 = 0 then
    decide (env.inet_aton ≠ 0) && decide (env.socket ≠ -1) && decide (env.connect ≠ -1)
  else true

/-- The socket the transfers of a call use: the one `socket` returned for an INIT
request, else the global `sckt`. -/
def socketOf (env : Env) (sckt : Int) (op : Nat) : Int :=
  if op / 2 ^ 56 % 256 = 0 then env.socket else sckt

/-- The six transfers of a complete exchange, in order, with the byte counts the code
expects and the counts the environment reports. -/
def sixTransfers (env : Env) (sckt : Int) (op : Nat) (buf : List Nat) : List IOCall :=
  let fd := socketOf env sckt op
  [IOCall.write fd (beBytes64 op) env.write1,
   IOCall.write fd (beBytes64 (payloadLen op)) env.write2,
   IOCall.write fd (buf.take (payloadLen op)) env.write3,
   IOCall.read fd 8 env.read1,
   IOCall.read fd 8 env.read2,
   IOCall.read fd (payloadLen op) env.read3]

/-- The byte count each of the six transfers is expected to move, paired with the count
the environment reports. -/
def transferCounts (env : Env) (op : Nat) : List (Int × Int) :=
  [(8, env.write1), (8, env.write2), ((payloadLen op : Nat), env.write3),
   (8, env.read1), (8, env.read2), ((payloadLen op : Nat), env.read3)]

/-- Index of the first transfer that moves a byte count different from the expected one. -/
def firstShort (env : Env) (op : Nat) : Option Nat :=
  (transferCounts env op).findIdx? (fun c => decide (c.1 ≠ c.2))

/-! ## The fail-disk operation (`tagline_sim.c`) -/

/-- The command word `remote_raid_fail_disk` builds for disk `dsk`:
`((uint64_t)RAID_DISKFAIL << 56) | ((uint64_t)dsk << 40)`. -/
def failDiskOp (dsk : Nat) : Nat := (RAID_DISKFAIL <<< 56) ||| (dsk <<< 40)

/-- The function `remote_raid_fail_disk`: the C return value and the outcome of the
transport call it makes with a `NULL` buffer (no memory, the empty list). -/
def remote_raid_fail_disk (env : Env) (sckt : Int) (dsk : Nat) : Int × Outcome :=
  let op := failDiskOp dsk
  let out := client_raid_bus_request env sckt op []
  let response := out.ret
  let oreq := (response >>> 56) &&& 0xff
  let odid := (response >>> 40) &&& 0xff
  if oreq ≠ RAID_DISKFAIL ∨ odid ≠ dsk then (-1, out) else (0, out)

/-- The request-type accessor of the code: `op >> 56` (`raid_client.c`), masked with
`0xff` in `tagline_sim.c`. -/
def fieldReqType (op : Nat) : Nat := (op >>> 56) &&& 0xff

/-- The block-count accessor of the code: `(op >> 48) & 0xFF` (`raid_client.c`). -/
def fieldBlocks (op : Nat) : Nat := (op >>> SHIFT_FOR_BLOCKS) &&& STRUCTURE_FOR_BLOCKS

/-- The disk-id accessor of the code: `(response >> 40) & 0xff` (`tagline_sim.c`). -/
def fieldDiskId (op : Nat) : Nat := (op >>> 40) &&& 0xff

/-- Modelled from the spec: the accessor of the unused bits 33-39; the function
`extract_raid_response` that reads them is declared in `tagline_driver.h` but its body is
not part of the sources. -/
def fieldUnused (op : Nat) : Nat := (op >>> 33) &&& 0x7f

/-- Modelled from the spec: the accessor of the status bit 32 (body of
`extract_raid_response` not part of the sources). -/
def fieldStatus (op : Nat) : Nat := (op >>> 32) &&& 0x1

/-- Modelled from the spec: the accessor of the block id, bits 0-31 (body of
`extract_raid_response` not part of the sources). -/
def fieldBlockId (op : Nat) : Nat := op &&& 0xffffffff

/-- An environment in which the first write fails (returns -1). -/
def envWriteFails : Env :=
  { littleEndian := true, inet_aton := 1, socket := 3, connect := 0,
    write1 := -1, write2 := 8, write3 := 0, read1 := 8, read2 := 8, read3 := 0,
    respOp := [7, 0, 2, 0, 0, 0, 0, 0], respLen := [0, 0, 0, 0, 0, 0, 0, 0], respBuf := [] }

/-- An environment in which every transfer of a request without payload is complete and
the peer answers the word of `failDiskOp 2` with the status bit set. -/
def envStatusSet : Env :=
  { littleEndian := true, inet_aton := 1, socket := 3, connect := 0,
    write1 := 8, write2 := 8, write3 := 0, read1 := 8, read2 := 8, read3 := 0,
    respOp := [7, 0, 2, 1, 0, 0, 0, 0], respLen := [0, 0, 0, 0, 0, 0, 0, 0], respBuf := [] }

/-- An environment in which every transfer of a request without payload is complete and
the peer answers with a READ word for disk 5. -/
def envOtherWord : Env :=
  { littleEndian := true, inet_aton := 1, socket := 3, connect := 0,
    write1 := 8, write2 := 8, write3 := 0, read1 := 8, read2 := 8, read3 := 0,
    respOp := [3, 0, 5, 0, 0, 0, 0, 0], respLen := [0, 0, 0, 0, 0, 0, 0, 0], respBuf := [] }

/-- An environment in which every transfer of a request without payload is complete and
the peer echoes the 8 bytes of `failDiskOp 2`. -/
def envEchoFail : Env :=
  { littleEndian := true, inet_aton := 1, socket := 3, connect := 0,
    write1 := 8, write2 := 8, write3 := 0, read1 := 8, read2 := 8, read3 := 0,
    respOp := [7, 0, 2, 0, 0, 0, 0, 0], respLen := [0, 0, 0, 0, 0, 0, 0, 0], respBuf := [] }

/-- An environment in which the three writes are complete and the peer then delivers only
5 bytes to the first read. -/
def envFiveBytes : Env :=
  { littleEndian := true, inet_aton := 1, socket := 3, connect := 0,
    write1 := 8, write2 := 8, write3 := 0, read1 := 5, read2 := 0, read3 := 0,
    respOp := [7, 0, 2, 0, 0], respLen := [], respBuf := [] }

/-- The bytes delivered to the first read are a well-formed 8-byte word. -/
def wordOk (env : Env) : Prop := 8 ≤ env.respOp.length ∧ ∀ b ∈ env.respOp.take 8, b < 256

instance (env : Env) : Decidable (wordOk env) :=
  inferInstanceAs (Decidable (8 ≤ env.respOp.length ∧ ∀ b ∈ env.respOp.take 8, b < 256))

/-! ## Auxiliary definitions for the statements -/

/-- The key of an entry. -/
def CacheEntry.key (e : CacheEntry) : Nat × Nat := (e.disk, e.blockID)

/-- Well-formedness of the globals: a non-empty cache has `leastRecent` pointing at a
stored entry, no buffer is longer than the allocation size, and at most
`TAGLINE_CACHE_SIZE` slots are in use. -/
structure WF (s : RaidCache) : Prop where
  lr : s.cache ≠ [] → ∃ j, s.leastRecent = some j ∧ j < s.cache.length
  buf : ∀ e ∈ s.cache, e.buffer.length ≤ toSizeT s.maxSize
  size : s.cache.length ≤ TAGLINE_CACHE_SIZE

/-- The calls that insert the `n` distinct keys `(0, 0) .. (0, n-1)`, the `i`-th at clock
reading `i`, every allocation succeeding. -/
def fillCalls (buf : List Nat) (n : Nat) : List CacheCall :=
  (List.range n).map (fun i => CacheCall.put 0 i buf (i : Int) true true)

/-- The entry the `i`-th call of `fillCalls` creates in a cache of allocation size `n`. -/
def fillEntry (buf : List Nat) (n : Nat) (i : Nat) : CacheEntry :=
  { clkTick := (i : Int), disk := 0, blockID := i,
    buffer := memcpy (List.replicate n 0) buf n }

/-- A full cache produced by `fillCalls`, possibly with slot 0 overwritten since: slot 0
is `e0`, the other slots hold the keys `(0, 1) .. (0, n + 1)` inserted at clock readings
`1 .. n + 1`. -/
def filledFrom (buf : List Nat) (m : Int) (n : Nat) (e0 : CacheEntry) : RaidCache :=
  { cache := e0 :: fillEntry buf (toSizeT m) 1 ::
      (List.range n).map (fun i => fillEntry buf (toSizeT m) (i + 2)),
    leastRecent := some 0, maxSize := m }

/-- The globals after `init_raid_cache(1)`: one block of 1024 bytes per buffer. -/
def cache1 : RaidCache := { cache := [], leastRecent := none, maxSize := 1024 }

/-- A block of 1024 bytes `0xAA`. -/
def blockAA : List Nat := List.replicate 1024 0xAA

/-- A block of 1024 bytes `0x55`. -/
def block55 : List Nat := List.replicate 1024 0x55

/-- A WRITE request for 1 block on disk 2 at block 100. -/
def opWrite : Nat := 0x0401020000000064

/-- An environment on a little-endian host in which connecting succeeds, every transfer
is complete and the peer echoes the word of `opWrite` with a block of `0x55`. -/
def envEcho : Env :=
  { littleEndian := true, inet_aton := 1, socket := 3, connect := 0,
    write1 := 8, write2 := 8, write3 := 1024, read1 := 8, read2 := 8, read3 := 1024,
    respOp := [4, 1, 2, 0, 0, 0, 0, 100], respLen := [0, 0, 0, 0, 0, 0, 4, 0],
    respBuf := block55 }

/-- The environment of `envEcho`, except that the first read returns 5 bytes. -/
def envShortRead : Env := { envEcho with read1 := 5 }

/-- A cache of four entries whose largest `clkTick` 5 occurs in slots 1 and 2. -/
def cacheTies : RaidCache :=
  { cache := [{ clkTick := 1, disk := 0, blockID := 0, buffer := [] },
              { clkTick := 5, disk := 0, blockID := 1, buffer := [] },
              { clkTick := 5, disk := 0, blockID := 2, buffer := [] },
              { clkTick := 3, disk := 0, blockID := 3, buffer := [] }],
    leastRecent := some 3, maxSize := 0 }

/-! ## Lemmas on the scan and on slot assignment -/

theorem findSlot_eq_none_iff (dsk blk : Nat) (l : List CacheEntry) :
    findSlot dsk blk l = none ↔ ∀ e ∈ l, ¬ (e.disk = dsk ∧ e.blockID = blk) := by
  induction l with
  | nil => simp [findSlot]
  | cons e es ih =>
    by_cases h : e.disk = dsk ∧ e.blockID = blk
    · simp [findSlot, h]
    · simp only [findSlot, h, if_false, Option.map_eq_none', ih, List.mem_cons, forall_eq_or_imp,
        not_false_eq_true, true_and]

theorem findSlot_some_spec (dsk blk : Nat) (l : List CacheEntry) (i : Nat)
    (h : findSlot dsk blk l = some i) :
    ∃ e, l[i]? = some e ∧ e.disk = dsk ∧ e.blockID = blk := by
  induction l generalizing i with
  | nil => simp [findSlot] at h
  | cons e es ih =>
    by_cases hk : e.disk = dsk ∧ e.blockID = blk
    · simp only [findSlot, hk, and_self, if_true, Option.some.injEq] at h
      subst h
      exact ⟨e, by simp, hk.1, hk.2⟩
    · simp only [findSlot, hk, if_false, Option.map_eq_some'] at h
      obtain ⟨j, hj, rfl⟩ := h
      obtain ⟨e', he', hd⟩ := ih j hj
      exact ⟨e', by simpa using he', hd⟩

theorem findSlot_some_lt (dsk blk : Nat) (l : List CacheEntry) (i : Nat)
    (h : findSlot dsk blk l = some i) : i < l.length := by
  obtain ⟨e, he, _⟩ := findSlot_some_spec dsk blk l i h
  exact (List.getElem?_eq_some_iff.mp he).1

theorem length_updateSlot (f : CacheEntry → CacheEntry) (l : List CacheEntry) (i : Nat) :
    (updateSlot f l i).length = l.length := by
  induction l generalizing i with
  | nil => simp [updateSlot]
  | cons e es ih => cases i <;> simp [updateSlot, ih]

theorem get?_updateSlot (f : CacheEntry → CacheEntry) (l : List CacheEntry) (i j : Nat) :
    (updateSlot f l i)[j]? = if j = i then l[j]?.map f else l[j]? := by
  induction l generalizing i j with
  | nil => simp [updateSlot]
  | cons e es ih =>
    cases i with
    | zero => cases j <;> simp [updateSlot]
    | succ i => cases j <;> simp [updateSlot, ih]

theorem mem_updateSlot (f : CacheEntry → CacheEntry) (l : List CacheEntry) (i : Nat)
    (x : CacheEntry) (hx : x ∈ updateSlot f l i) : x ∈ l ∨ ∃ e ∈ l, x = f e := by
  induction l generalizing i with
  | nil => simp [updateSlot] at hx
  | cons e es ih =>
    cases i with
    | zero =>
      simp only [updateSlot, List.mem_cons] at hx
      rcases hx with rfl | hx
      · exact Or.inr ⟨e, by simp, rfl⟩
      · exact Or.inl (by simp [hx])
    | succ i =>
      simp only [updateSlot, List.mem_cons] at hx
      rcases hx with rfl | hx
      · exact Or.inl (by simp)
      · rcases ih i hx with h | ⟨e', he', rfl⟩
        · exact Or.inl (by simp [h])
        · exact Or.inr ⟨e', by simp [he'], rfl⟩

/-- An assignment that leaves the key fields alone leaves every scan result alone. -/
theorem findSlot_updateSlot_key (f : CacheEntry → CacheEntry)
    (hf : ∀ e, (f e).disk = e.disk ∧ (f e).blockID = e.blockID)
    (dsk blk : Nat) (l : List CacheEntry) (i : Nat) :
    findSlot dsk blk (updateSlot f l i) = findSlot dsk blk l := by
  induction l generalizing i with
  | nil => simp [updateSlot]
  | cons e es ih =>
    cases i with
    | zero => simp [updateSlot, findSlot, (hf e).1, (hf e).2]
    | succ i => simp [updateSlot, findSlot, ih]

theorem map_key_updateSlot (f : CacheEntry → CacheEntry)
    (hf : ∀ e, (f e).disk = e.disk ∧ (f e).blockID = e.blockID)
    (l : List CacheEntry) (i : Nat) :
    (updateSlot f l i).map CacheEntry.key = l.map CacheEntry.key := by
  induction l generalizing i with
  | nil => simp [updateSlot]
  | cons e es ih =>
    cases i with
    | zero => simp [updateSlot, CacheEntry.key, (hf e).1, (hf e).2]
    | succ i => simp [updateSlot, ih]

theorem calcScan_lt (es : List CacheEntry) (i best : Nat) (bclk : Int) (h : best < i) :
    calcScan es i best bclk < i + es.length := by
  induction es generalizing i best bclk with
  | nil => simpa [calcScan] using h
  | cons e es ih =>
    simp only [calcScan, List.length_cons]
    split
    · have := ih (i + 1) i e.clkTick (Nat.lt_succ_self i)
      omega
    · have := ih (i + 1) best bclk (Nat.lt_succ_of_lt h)
      omega

/-! ## Structural invariant of the reachable states -/

theorem length_memcpy_le (dst src : List Nat) (n : Nat) (h : dst.length ≤ n) :
    (memcpy dst src n).length ≤ n := by
  simp only [memcpy, List.length_append, List.length_take, List.length_drop]
  omega

theorem memcpy_eq_take (dst src : List Nat) (n : Nat) (h : dst.length ≤ n) :
    memcpy dst src n = src.take n := by
  simp [memcpy, List.drop_eq_nil_of_le h]

theorem calc_least_recent_cache (s : RaidCache) : (calc_least_recent s).cache = s.cache := by
  unfold calc_least_recent; split <;> rfl

theorem calc_least_recent_maxSize (s : RaidCache) :
    (calc_least_recent s).maxSize = s.maxSize := by
  unfold calc_least_recent; split <;> rfl

theorem calc_least_recent_lr (s : RaidCache) (h : s.cache ≠ []) :
    ∃ j, (calc_least_recent s).leastRecent = some j ∧ j < s.cache.length := by
  unfold calc_least_recent
  split
  · next hnil => exact absurd hnil h
  · next e es hc =>
    refine ⟨_, rfl, ?_⟩
    have := calcScan_lt es 1 0 e.clkTick (by omega)
    rw [hc, List.length_cons]; omega

theorem WF_calc_least_recent (s : RaidCache) (h : WF s) : WF (calc_least_recent s) := by
  refine ⟨?_, ?_, ?_⟩
  · intro hne
    rw [calc_least_recent_cache] at hne ⊢
    exact calc_least_recent_lr s hne
  · rw [calc_least_recent_cache, calc_least_recent_maxSize]; exact h.buf
  · rw [calc_least_recent_cache]; exact h.size

theorem put_maxSize (s : RaidCache) (dsk blk : Nat) (buf : List Nat) (now : Int)
    (me mb : Bool) : (put_raid_cache s dsk blk buf now me mb).2.maxSize = s.maxSize := by
  unfold put_raid_cache
  split
  · rfl
  · split
    · split <;> simp [calc_least_recent_maxSize]
    · split
      · rfl
      · split <;> rfl

theorem get_maxSize (s : RaidCache) (dsk blk : Nat) (now : Int) :
    (get_raid_cache s dsk blk now).2.maxSize = s.maxSize := by
  unfold get_raid_cache
  split
  · simp only
    split <;> simp [calc_least_recent_maxSize]
  · rfl

theorem WF_put (s : RaidCache) (dsk blk : Nat) (buf : List Nat) (now : Int) (me mb : Bool)
    (h : WF s) : WF (put_raid_cache s dsk blk buf now me mb).2 := by
  unfold put_raid_cache
  split
  · next i hi =>
    refine ⟨?_, ?_, ?_⟩
    · intro _
      obtain ⟨j, hj, hlt⟩ := h.lr (by
        intro hnil; rw [hnil] at hi; simp [findSlot] at hi)
      exact ⟨j, hj, by simpa [length_updateSlot] using hlt⟩
    · intro e he
      rcases mem_updateSlot _ _ _ _ he with h1 | ⟨e', he', rfl⟩
      · exact h.buf e h1
      · exact length_memcpy_le _ _ _ (h.buf e' he')
    · simpa [length_updateSlot] using h.size
  · split
    · split
      · next j hj =>
        apply WF_calc_least_recent
        refine ⟨?_, ?_, ?_⟩
        · intro _
          obtain ⟨j', hj', hlt⟩ := h.lr (by
            intro hnil
            have : initialized s = TAGLINE_CACHE_SIZE := by assumption
            simp [initialized, hnil, TAGLINE_CACHE_SIZE] at this)
          exact ⟨j', hj', by simpa [length_updateSlot] using hlt⟩
        · intro e he
          rcases mem_updateSlot _ _ _ _ he with h1 | ⟨e', he', rfl⟩
          · exact h.buf e h1
          · exact length_memcpy_le _ _ _ (h.buf e' he')
        · simpa [length_updateSlot] using h.size
      · exact WF_calc_least_recent s h
    · next hfull =>
      split
      · exact h
      · split
        · exact h
        · refine ⟨?_, ?_, ?_⟩
          · intro _
            simp only [initialized, List.length_append, List.length_singleton]
            by_cases h0 : s.cache.length = 0
            · exact ⟨0, by simp [h0], by omega⟩
            · obtain ⟨j, hj, hlt⟩ := h.lr (by
                intro hnil; simp [hnil] at h0)
              exact ⟨j, by simp [h0, hj], by omega⟩
          · intro e he
            simp only [List.mem_append, List.mem_singleton] at he
            rcases he with h1 | rfl
            · exact h.buf e h1
            · exact length_memcpy_le _ _ _ (by simp)
          · have := h.size
            simp only [initialized] at hfull
            simp only [List.length_append, List.length_singleton]
            omega

theorem WF_get (s : RaidCache) (dsk blk : Nat) (now : Int) (h : WF s) :
    WF (get_raid_cache s dsk blk now).2 := by
  unfold get_raid_cache
  split
  · next i hi =>
    have hne : s.cache ≠ [] := by
      intro hnil; rw [hnil] at hi; simp [findSlot] at hi
    have h1 : WF { s with cache := updateSlot (fun e => { e with clkTick := now }) s.cache i } := by
      refine ⟨?_, ?_, ?_⟩
      · intro _
        obtain ⟨j, hj, hlt⟩ := h.lr hne
        exact ⟨j, hj, by simpa [length_updateSlot] using hlt⟩
      · intro e he
        rcases mem_updateSlot _ _ _ _ he with h1 | ⟨e', he', rfl⟩
        · exact h.buf e h1
        · exact h.buf e' he'
      · simpa [length_updateSlot] using h.size
    simp only
    split
    · exact WF_calc_least_recent _ h1
    · exact h1
  · exact h

theorem Reachable.wf {s : RaidCache} (h : Reachable s) : WF s := by
  induction h with
  | init max_items s h =>
    simp only [init_raid_cache, if_true, Option.some.injEq] at h
    subst h
    exact ⟨by simp, by simp, by simp⟩
  | put s dsk blk buf now me mb _ ih => exact WF_put s dsk blk buf now me mb ih
  | get s dsk blk now _ ih => exact WF_get s dsk blk now ih

/-! ## What `get_raid_cache` returns -/

theorem get_fst (s : RaidCache) (dsk blk : Nat) (now : Int) :
    (get_raid_cache s dsk blk now).1 =
      (findSlot dsk blk s.cache).bind (fun i => s.cache[i]?.map (·.buffer)) := by
  unfold get_raid_cache
  split
  · next i hi =>
    have hb : ((updateSlot (fun e => { e with clkTick := now }) s.cache i)[i]?).map (·.buffer)
        = s.cache[i]?.map (·.buffer) := by
      rw [get?_updateSlot]; simp [Function.comp_def]
    simp only [hi, Option.some_bind]
    split
    · rw [calc_least_recent_cache]; exact hb
    · exact hb
  · next hn => simp [hn]

theorem findSlot_updateSlot_new (g : CacheEntry → CacheEntry) (dsk blk : Nat)
    (hg : ∀ e, (g e).disk = dsk ∧ (g e).blockID = blk) (l : List CacheEntry) (j : Nat)
    (hnone : findSlot dsk blk l = none) (hj : j < l.length) :
    findSlot dsk blk (updateSlot g l j) = some j := by
  induction l generalizing j with
  | nil => simp at hj
  | cons e es ih =>
    have hk : ¬ (e.disk = dsk ∧ e.blockID = blk) := by
      intro hk; simp [findSlot, hk] at hnone
    have hrest : findSlot dsk blk es = none := by
      simpa [findSlot, hk] using hnone
    cases j with
    | zero => simp [updateSlot, findSlot, (hg e).1, (hg e).2]
    | succ j =>
      have hj2 : j < es.length := by simpa using hj
      simp [updateSlot, findSlot, hk, ih j hrest hj2]

theorem findSlot_append_new (dsk blk : Nat) (l : List CacheEntry) (t : CacheEntry)
    (ht : t.disk = dsk ∧ t.blockID = blk) (hnone : findSlot dsk blk l = none) :
    findSlot dsk blk (l ++ [t]) = some l.length := by
  induction l with
  | nil => simp [findSlot, ht.1, ht.2]
  | cons e es ih =>
    have hk : ¬ (e.disk = dsk ∧ e.blockID = blk) := by
      intro hk; simp [findSlot, hk] at hnone
    have hrest : findSlot dsk blk es = none := by
      simpa [findSlot, hk] using hnone
    simp [findSlot, hk, ih hrest]

/-- After a successful `put_raid_cache` on a well-formed cache the scan finds a slot with
the key, and that slot holds the bytes copied from `buf`. -/
theorem put_stores (s : RaidCache) (hs : WF s) (dsk blk : Nat) (buf : List Nat) (now : Int)
    (me mb : Bool) (hput : (put_raid_cache s dsk blk buf now me mb).1 = 0) :
    ∃ i, findSlot dsk blk (put_raid_cache s dsk blk buf now me mb).2.cache = some i ∧
      (put_raid_cache s dsk blk buf now me mb).2.cache[i]?.map (·.buffer)
        = some (buf.take (toSizeT s.maxSize)) := by
  unfold put_raid_cache at hput ⊢
  split at hput
  · next i hi =>
    simp only [hi]
    obtain ⟨e, he, _⟩ := findSlot_some_spec dsk blk s.cache i hi
    refine ⟨i, ?_, ?_⟩
    · rw [findSlot_updateSlot_key]
      · exact hi
      · intro _; exact ⟨rfl, rfl⟩
    · rw [get?_updateSlot]
      have hmem : e ∈ s.cache := List.getElem?_mem he
      simp [he, memcpy_eq_take _ _ _ (hs.buf e hmem)]
  · next hnone =>
    simp only [hnone]
    split at hput
    · next hfull =>
      have hne : s.cache ≠ [] := by
        intro hnil; simp [initialized, hnil, TAGLINE_CACHE_SIZE] at hfull
      obtain ⟨j, hj, hlt⟩ := hs.lr hne
      obtain ⟨e, he⟩ : ∃ e, s.cache[j]? = some e := ⟨s.cache[j], by simp [hlt]⟩
      have hmem : e ∈ s.cache := List.getElem?_mem he
      simp only [hfull, if_true, hj, calc_least_recent_cache]
      refine ⟨j, findSlot_updateSlot_new _ dsk blk (fun _ => ⟨rfl, rfl⟩) _ _ hnone hlt, ?_⟩
      rw [get?_updateSlot]
      simp [he, memcpy_eq_take _ _ _ (hs.buf e hmem)]
    · next hfull =>
      simp only [hfull, if_false]
      split at hput
      · simp at hput
      · next hme =>
        split at hput
        · simp at hput
        · next hmb =>
          simp only [hme, hmb, if_false]
          refine ⟨s.cache.length, findSlot_append_new dsk blk _ _ ⟨rfl, rfl⟩ hnone, ?_⟩
          simp [memcpy_eq_take]

/-! ## The recomputation keeps the pointer on the newest entry -/

theorem calcScan_of_le (es : List CacheEntry) (i best : Nat) (bclk : Int)
    (h : ∀ e ∈ es, e.clkTick ≤ bclk) : calcScan es i best bclk = best := by
  induction es generalizing i with
  | nil => rfl
  | cons e es ih =>
    have he : ¬ e.clkTick > bclk := by
      have := h e (by simp); omega
    simp only [calcScan, he, if_false]
    exact ih (i + 1) (fun x hx => h x (by simp [hx]))

/-- Eviction when `leastRecent` is slot 0 and no other entry is newer than the clock
reading: slot 0 is overwritten and `leastRecent` stays on slot 0. -/
theorem put_evict_front (s : RaidCache) (e0 : CacheEntry) (rest : List CacheEntry)
    (dsk blk : Nat) (buf : List Nat) (now : Int) (me mb : Bool)
    (hc : s.cache = e0 :: rest) (hlr : s.leastRecent = some 0)
    (hfull : s.cache.length = TAGLINE_CACHE_SIZE)
    (hnone : findSlot dsk blk s.cache = none) (hclk : ∀ e ∈ rest, e.clkTick ≤ now) :
    put_raid_cache s dsk blk buf now me mb =
      (0, { cache := { clkTick := now, disk := dsk, blockID := blk,
                       buffer := memcpy e0.buffer buf (toSizeT s.maxSize) } :: rest,
            leastRecent := some 0, maxSize := s.maxSize }) := by
  unfold put_raid_cache
  rw [hc] at hnone hfull
  simp only [hnone, initialized, hfull, if_true, hlr, hc, updateSlot, calc_least_recent,
    calcScan_of_le rest 1 0 now hclk]

/-- A hit on slot 0 when `leastRecent` is slot 0 and no other entry is newer than the
clock reading: `leastRecent` stays on slot 0. -/
theorem get_front (s : RaidCache) (e0 : CacheEntry) (rest : List CacheEntry)
    (dsk blk : Nat) (now : Int)
    (hc : s.cache = e0 :: rest) (hlr : s.leastRecent = some 0)
    (hkey : e0.disk = dsk ∧ e0.blockID = blk) (hclk : ∀ e ∈ rest, e.clkTick ≤ now) :
    get_raid_cache s dsk blk now =
      (some e0.buffer,
       { cache := { e0 with clkTick := now } :: rest, leastRecent := some 0,
         maxSize := s.maxSize }) := by
  unfold get_raid_cache
  have hf : findSlot dsk blk (e0 :: rest) = some 0 := by
    simp [findSlot, hkey.1, hkey.2]
  simp only [hf, hc, updateSlot, hlr, if_true, calc_least_recent,
    calcScan_of_le rest 1 0 now hclk]
  simp

/-! ## The state after the cold fills of `fillCalls` -/

theorem findSlot_fill_none (buf : List Nat) (m dsk blk : Nat) (l : List Nat)
    (h : ∀ i ∈ l, ¬ (0 = dsk ∧ i = blk)) :
    findSlot dsk blk (l.map (fillEntry buf m)) = none := by
  rw [findSlot_eq_none_iff]
  intro e he
  obtain ⟨i, hi, rfl⟩ := List.mem_map.mp he
  exact h i hi

theorem runCalls_append (s : RaidCache) (xs ys : List CacheCall) :
    runCalls s (xs ++ ys) = runCalls (runCalls s xs) ys := by
  simp [runCalls, List.foldl_append]

theorem runCalls_fill (buf : List Nat) (m : Int) (n : Nat) (hn : n ≤ TAGLINE_CACHE_SIZE) :
    runCalls { cache := [], leastRecent := none, maxSize := m } (fillCalls buf n) =
      { cache := (List.range n).map (fillEntry buf (toSizeT m)),
        leastRecent := if n = 0 then none else some 0, maxSize := m } := by
  induction n with
  | zero => simp [runCalls, fillCalls]
  | succ n ih =>
    have hlt : n < TAGLINE_CACHE_SIZE := hn
    have hprev := ih (Nat.le_of_lt hlt)
    have hsplit : fillCalls buf (n + 1)
        = fillCalls buf n ++ [CacheCall.put 0 n buf (n : Int) true true] := by
      simp [fillCalls, List.range_succ]
    rw [hsplit, runCalls_append, hprev]
    have hnone : findSlot 0 n ((List.range n).map (fillEntry buf (toSizeT m))) = none := by
      apply findSlot_fill_none
      intro i hi hk
      have := List.mem_range.mp hi
      omega
    have hne : ¬ n = TAGLINE_CACHE_SIZE := Nat.ne_of_lt hlt
    simp only [runCalls, List.foldl_cons, List.foldl_nil, stepCall, put_raid_cache, hnone,
      initialized, List.length_map, List.length_range, hne, if_false, Bool.not_true,
      Bool.false_eq_true, List.range_succ, List.map_append, List.map_cons, List.map_nil]
    by_cases h0 : n = 0
    · subst h0; simp [fillEntry]
    · simp [h0, fillEntry]

/-! ## Key uniqueness -/

theorem nodup_updateSlot_new (g : CacheEntry → CacheEntry) (k : Nat × Nat)
    (hg : ∀ e, (g e).key = k) (l : List CacheEntry) (j : Nat)
    (hnd : (l.map CacheEntry.key).Nodup) (hk : ∀ e ∈ l, e.key ≠ k) :
    ((updateSlot g l j).map CacheEntry.key).Nodup := by
  induction l generalizing j with
  | nil => simp [updateSlot]
  | cons e es ih =>
    simp only [List.map_cons, List.nodup_cons, List.mem_map, not_exists, not_and] at hnd
    cases j with
    | zero =>
      simp only [updateSlot, List.map_cons, List.nodup_cons, List.mem_map, not_exists, not_and]
      refine ⟨fun x hx hxe => hk x (by simp [hx]) (hxe.trans (hg e)), hnd.2⟩
    | succ j =>
      simp only [updateSlot, List.map_cons, List.nodup_cons, List.mem_map, not_exists, not_and]
      refine ⟨?_, ih j hnd.2 (fun x hx => hk x (by simp [hx]))⟩
      intro x hx hxe
      rcases mem_updateSlot g es j x hx with h1 | ⟨e', _, rfl⟩
      · exact hnd.1 x h1 hxe
      · exact hk e (by simp) (hxe.symm.trans (hg e'))

theorem nodup_put (s : RaidCache) (dsk blk : Nat) (buf : List Nat) (now : Int) (me mb : Bool)
    (h : (s.cache.map CacheEntry.key).Nodup) :
    ((put_raid_cache s dsk blk buf now me mb).2.cache.map CacheEntry.key).Nodup := by
  unfold put_raid_cache
  split
  · simp only
    rw [map_key_updateSlot]
    · exact h
    · intro _; exact ⟨rfl, rfl⟩
  · next hnone =>
    have hk : ∀ e ∈ s.cache, e.key ≠ (dsk, blk) := by
      intro e he heq
      have := (findSlot_eq_none_iff dsk blk s.cache).mp hnone e he
      simp only [CacheEntry.key, Prod.mk.injEq] at heq
      exact this heq
    split
    · split
      · rw [calc_least_recent_cache]
        refine nodup_updateSlot_new _ (dsk, blk) ?_ _ _ h hk
        intro _; rfl
      · rw [calc_least_recent_cache]; exact h
    · split
      · exact h
      · split
        · exact h
        · simp only [List.map_append, List.map_cons, List.map_nil]
          rw [List.nodup_append]
          refine ⟨h, by simp, ?_⟩
          intro a ha hb
          simp only [List.mem_singleton] at hb
          obtain ⟨e, he, rfl⟩ := List.mem_map.mp ha
          exact hk e he hb

theorem get_cache_keys (s : RaidCache) (dsk blk : Nat) (now : Int) :
    (get_raid_cache s dsk blk now).2.cache.map CacheEntry.key = s.cache.map CacheEntry.key := by
  unfold get_raid_cache
  split
  · simp only
    split
    · rw [calc_least_recent_cache, map_key_updateSlot]
      intro _; exact ⟨rfl, rfl⟩
    · rw [map_key_updateSlot]
      intro _; exact ⟨rfl, rfl⟩
  · rfl

theorem Reachable.runCalls {s : RaidCache} (h : Reachable s) (cs : List CacheCall) :
    Reachable (runCalls s cs) := by
  induction cs generalizing s with
  | nil => exact h
  | cons c cs ih =>
    cases c with
    | put dsk blk buf now me mb => exact ih (Reachable.put s dsk blk buf now me mb h)
    | get dsk blk now => exact ih (Reachable.get s dsk blk now h)

theorem get_fst_eq_none_iff (s : RaidCache) (dsk blk : Nat) (now : Int) :
    (get_raid_cache s dsk blk now).1 = none ↔ findSlot dsk blk s.cache = none := by
  rw [get_fst]
  constructor
  · intro h
    cases hf : findSlot dsk blk s.cache with
    | none => rfl
    | some i =>
      have hlt := findSlot_some_lt dsk blk s.cache i hf
      simp [hf, hlt] at h
  · intro h; simp [h]

theorem get_snd_of_miss (s : RaidCache) (dsk blk : Nat) (now : Int)
    (h : findSlot dsk blk s.cache = none) : (get_raid_cache s dsk blk now).2 = s := by
  simp [get_raid_cache, h]

/-- A successful put followed by a get of the same key, on a well-formed cache. -/
theorem put_get_of_wf (s : RaidCache) (hs : WF s) (dsk blk : Nat)
    (buf : List Nat) (now now2 : Int) (me mb : Bool)
    (hput : (put_raid_cache s dsk blk buf now me mb).1 = 0) :
    (get_raid_cache (put_raid_cache s dsk blk buf now me mb).2 dsk blk now2).1
      = some (buf.take (toSizeT s.maxSize)) := by
  obtain ⟨i, hi, hb⟩ := put_stores s hs dsk blk buf now me mb hput
  rw [get_fst, hi, Option.some_bind, hb]

/-! ## The cache claims -/

/-- C5: key uniqueness is an invariant: in every state reachable from `init_raid_cache`
by `put`/`get` calls, the stored entries have pairwise different `(disk, blockID)` keys. -/
theorem keys_unique (s : RaidCache) (hs : Reachable s) :
    (s.cache.map CacheEntry.key).Nodup := by
  induction hs with
  | init max_items s h =>
    simp only [init_raid_cache, if_true, Option.some.injEq] at h
    subst h
    simp
  | put s dsk blk buf now me mb _ ih => exact nodup_put s dsk blk buf now me mb ih
  | get s dsk blk now _ ih => rw [get_cache_keys]; exact ih

/-- Witness for C5: the state after `init(1)`, `put(3,7)`, `put(3,8)`, `put(3,7)`,
`get(3,8)`. -/
theorem keys_unique_witness :
    Reachable (runCalls cache1
      [CacheCall.put 3 7 blockAA 0 true true, CacheCall.put 3 8 block55 1 true true,
       CacheCall.put 3 7 block55 2 true true, CacheCall.get 3 8 3]) ∧
    ((runCalls cache1
      [CacheCall.put 3 7 blockAA 0 true true, CacheCall.put 3 8 block55 1 true true,
       CacheCall.put 3 7 block55 2 true true, CacheCall.get 3 8 3]).cache.map
        CacheEntry.key).Nodup :=
  ⟨(Reachable.init 1 cache1 rfl).runCalls _,
   keys_unique _ ((Reachable.init 1 cache1 rfl).runCalls _)⟩

/-- C8: `get_raid_cache(dsk, blk)` returns NULL exactly when no stored entry has the key
`(dsk, blk)`, and a miss leaves the globals (entries, timestamps, `leastRecent`)
unchanged. -/
theorem get_miss_iff (s : RaidCache) (dsk blk : Nat) (now : Int) :
    ((get_raid_cache s dsk blk now).1 = none ↔
      ∀ e ∈ s.cache, ¬ (e.disk = dsk ∧ e.blockID = blk)) ∧
    ((get_raid_cache s dsk blk now).1 = none → (get_raid_cache s dsk blk now).2 = s) :=
  ⟨(get_fst_eq_none_iff s dsk blk now).trans (findSlot_eq_none_iff dsk blk s.cache),
   fun h => get_snd_of_miss s dsk blk now ((get_fst_eq_none_iff s dsk blk now).mp h)⟩

/-- Instance of C8: after `init(1)` and `put(3, 7, [0xAA; 1024])`, `get(3, 8)` returns
not-found and changes nothing. -/
theorem get_miss_iff_witness :
    (get_raid_cache (put_raid_cache cache1 3 7 blockAA 0 true true).2 3 8 1).1 = none ∧
    (get_raid_cache (put_raid_cache cache1 3 7 blockAA 0 true true).2 3 8 1).2
      = (put_raid_cache cache1 3 7 blockAA 0 true true).2 :=
  have h : (get_raid_cache (put_raid_cache cache1 3 7 blockAA 0 true true).2 3 8 1).1 = none :=
    (get_miss_iff (put_raid_cache cache1 3 7 blockAA 0 true true).2 3 8 1).1.mpr (by decide)
  ⟨h, (get_miss_iff (put_raid_cache cache1 3 7 blockAA 0 true true).2 3 8 1).2 h⟩

theorem findSlot_cons_of_eq (dsk blk : Nat) (e : CacheEntry) (es : List CacheEntry)
    (h : e.disk = dsk ∧ e.blockID = blk) : findSlot dsk blk (e :: es) = some 0 := by
  simp only [findSlot, h, and_self, if_true]

theorem findSlot_cons_of_ne (dsk blk : Nat) (e : CacheEntry) (es : List CacheEntry)
    (h : ¬ (e.disk = dsk ∧ e.blockID = blk)) :
    findSlot dsk blk (e :: es) = (findSlot dsk blk es).map (· + 1) := by
  simp only [findSlot, h, if_false]

theorem range_add_two (n : Nat) :
    List.range (n + 2) = 0 :: 1 :: (List.range n).map (fun i => i + 2) := by
  rw [List.range_succ_eq_map, List.range_succ_eq_map]
  simp [Function.comp_def]

theorem memcpy_fresh (buf : List Nat) (n : Nat) (h : buf.length ≤ n) :
    memcpy (List.replicate n 0) buf n = buf := by
  rw [memcpy_eq_take _ _ _ (by simp)]
  exact List.take_of_length_le h

/-- The globals after a successful `init` and the `n + 2` cold fills of `fillCalls`: the
entries in insertion order, `leastRecent` on slot 0. -/
theorem runCalls_fill_shape (buf : List Nat) (m : Int) (n : Nat)
    (hn : n + 2 ≤ TAGLINE_CACHE_SIZE) :
    runCalls { cache := [], leastRecent := none, maxSize := m } (fillCalls buf (n + 2)) =
      { cache := fillEntry buf (toSizeT m) 0 :: fillEntry buf (toSizeT m) 1 ::
          (List.range n).map (fun i => fillEntry buf (toSizeT m) (i + 2)),
        leastRecent := some 0, maxSize := m } := by
  rw [runCalls_fill buf m (n + 2) hn, range_add_two]
  simp [Function.comp_def]

theorem fill_rest_spec (buf : List Nat) (m n : Nat) (e : CacheEntry)
    (he : e ∈ (List.range n).map (fun i => fillEntry buf m (i + 2))) :
    e.disk = 0 ∧ 2 ≤ e.blockID ∧ e.clkTick ≤ ((n + 1 : Nat) : Int) := by
  obtain ⟨i, hi, rfl⟩ := List.mem_map.mp he
  have := List.mem_range.mp hi
  refine ⟨rfl, ?_, ?_⟩
  · simp [fillEntry]
  · simp only [fillEntry]; omega

theorem runCalls_fill_filledFrom (buf : List Nat) (m : Int) (n : Nat)
    (hn : n + 2 ≤ TAGLINE_CACHE_SIZE) :
    runCalls { cache := [], leastRecent := none, maxSize := m } (fillCalls buf (n + 2)) =
      filledFrom buf m n (fillEntry buf (toSizeT m) 0) :=
  runCalls_fill_shape buf m n hn

theorem filledFrom_rest_clk (buf : List Nat) (m : Int) (n : Nat) (now : Int)
    (hnow : ((n + 1 : Nat) : Int) ≤ now) :
    ∀ e ∈ fillEntry buf (toSizeT m) 1 ::
      (List.range n).map (fun i => fillEntry buf (toSizeT m) (i + 2)), e.clkTick ≤ now := by
  intro e he
  rcases List.mem_cons.mp he with rfl | he
  · simp only [fillEntry]; omega
  · have := (fill_rest_spec buf (toSizeT m) n e he).2.2; omega

theorem filledFrom_rest_key (buf : List Nat) (m : Int) (n : Nat) :
    ∀ e ∈ fillEntry buf (toSizeT m) 1 ::
      (List.range n).map (fun i => fillEntry buf (toSizeT m) (i + 2)),
      e.disk = 0 ∧ 1 ≤ e.blockID := by
  intro e he
  rcases List.mem_cons.mp he with rfl | he
  · exact ⟨rfl, Nat.le_refl 1⟩
  · have := fill_rest_spec buf (toSizeT m) n e he
    exact ⟨this.1, by omega⟩

/-- A hit on slot 0 of a filled cache at a clock reading not behind the fills leaves
`leastRecent` on slot 0. -/
theorem filledFrom_get_front (buf : List Nat) (m : Int) (n : Nat) (e0 : CacheEntry)
    (now : Int) (hnow : ((n + 1 : Nat) : Int) ≤ now) :
    get_raid_cache (filledFrom buf m n e0) e0.disk e0.blockID now =
      (some e0.buffer, filledFrom buf m n { e0 with clkTick := now }) :=
  get_front (filledFrom buf m n e0) e0 _ e0.disk e0.blockID now rfl rfl ⟨rfl, rfl⟩
    (filledFrom_rest_clk buf m n now hnow)

/-- A key that is not stored misses in a filled cache. -/
theorem filledFrom_findSlot_none (buf : List Nat) (m : Int) (n : Nat) (e0 : CacheEntry)
    (dsk blk : Nat) (h0 : ¬ (e0.disk = dsk ∧ e0.blockID = blk)) (hk : dsk ≠ 0 ∨ blk = 0) :
    findSlot dsk blk (filledFrom buf m n e0).cache = none := by
  rw [findSlot_eq_none_iff]
  intro e he
  rcases List.mem_cons.mp he with rfl | he
  · exact h0
  · have := filledFrom_rest_key buf m n e he
    omega

/-- In a filled cache (all `TAGLINE_CACHE_SIZE` slots in use) the put of a key that is not
stored, at a clock reading not behind the fills, overwrites slot 0. -/
theorem filledFrom_put_evict (buf : List Nat) (m : Int) (n : Nat) (e0 : CacheEntry)
    (hn : n + 2 = TAGLINE_CACHE_SIZE) (dsk blk : Nat) (b : List Nat) (now : Int)
    (me mb : Bool) (h0 : ¬ (e0.disk = dsk ∧ e0.blockID = blk)) (hk : dsk ≠ 0 ∨ blk = 0)
    (hnow : ((n + 1 : Nat) : Int) ≤ now) :
    put_raid_cache (filledFrom buf m n e0) dsk blk b now me mb =
      (0, filledFrom buf m n { clkTick := now, disk := dsk, blockID := blk,
                               buffer := memcpy e0.buffer b (toSizeT m) }) :=
  put_evict_front (filledFrom buf m n e0) e0 _ dsk blk b now me mb rfl rfl
    (by simp [filledFrom, hn]) (filledFrom_findSlot_none buf m n e0 dsk blk h0 hk)
    (filledFrom_rest_clk buf m n now hnow)

/-- The key `(0, 1)` of slot 1 is found in a filled cache, with the bytes of its fill. -/
theorem filledFrom_get_second (buf : List Nat) (m : Int) (n : Nat) (e0 : CacheEntry)
    (now : Int) (h0 : ¬ (e0.disk = 0 ∧ e0.blockID = 1)) :
    (get_raid_cache (filledFrom buf m n e0) 0 1 now).1 =
      some (memcpy (List.replicate (toSizeT m) 0) buf (toSizeT m)) := by
  rw [get_fst]
  have h1 : findSlot 0 1 (filledFrom buf m n e0).cache = some 1 := by
    simp only [filledFrom]
    rw [findSlot_cons_of_ne _ _ _ _ h0,
      findSlot_cons_of_eq 0 1 (fillEntry buf (toSizeT m) 1) _ ⟨rfl, rfl⟩]
    rfl
  rw [h1]
  simp [filledFrom, fillEntry]

theorem length_blockAA : blockAA.length ≤ toSizeT 1024 := by
  rw [blockAA, List.length_replicate]; decide

theorem length_block55 : block55.length ≤ toSizeT 1024 := by
  rw [block55, List.length_replicate]; decide

/-- C2 (what the code does): `init(1)`, 1024 distinct keys inserted at clock readings
0..1023 with A = (0,0) first and B = (0,1) second, `get(A)` at 1024, `put(C)` for the new
key C = (1,0) at 1025.  The put overwrites A, the entry accessed most recently: afterwards
`get(A)` returns NULL, while B, not accessed since its insertion, is still found. -/
theorem eviction_removes_most_recent :
    init_raid_cache 1 true = some cache1 ∧
    (get_raid_cache (runCalls cache1 (fillCalls blockAA 1024 ++
        [CacheCall.get 0 0 1024, CacheCall.put 1 0 block55 1025 true true])) 0 0 1026).1
      = none ∧
    (get_raid_cache (runCalls cache1 (fillCalls blockAA 1024 ++
        [CacheCall.get 0 0 1024, CacheCall.put 1 0 block55 1025 true true])) 0 1 1026).1
      = some blockAA := by
  have hstate : runCalls cache1 (fillCalls blockAA (1022 + 2) ++
        [CacheCall.get 0 0 1024, CacheCall.put 1 0 block55 1025 true true]) =
      filledFrom blockAA 1024 1022
        { clkTick := 1025, disk := 1, blockID := 0,
          buffer := memcpy (fillEntry blockAA (toSizeT 1024) 0).buffer block55
            (toSizeT 1024) } := by
    rw [runCalls_append, cache1, runCalls_fill_filledFrom _ _ _ (by decide)]
    have hg := filledFrom_get_front blockAA 1024 1022 (fillEntry blockAA (toSizeT 1024) 0)
      1024 (by omega)
    have hp := filledFrom_put_evict blockAA 1024 1022
      { fillEntry blockAA (toSizeT 1024) 0 with clkTick := 1024 } rfl 1 0 block55 1025
      true true (by decide) (Or.inl (by decide)) (by omega)
    simp only [runCalls, List.foldl_cons, List.foldl_nil, stepCall]
    rw [show get_raid_cache (filledFrom blockAA 1024 1022
      (fillEntry blockAA (toSizeT 1024) 0)) 0 0 1024 = _ from hg]
    rw [hp]
  refine ⟨rfl, ?_, ?_⟩
  · rw [show (1024 : Nat) = 1022 + 2 from rfl, hstate]
    exact (get_fst_eq_none_iff _ 0 0 1026).mpr
      (filledFrom_findSlot_none blockAA 1024 1022 _ 0 0 (by decide) (Or.inr rfl))
  · rw [show (1024 : Nat) = 1022 + 2 from rfl, hstate,
      filledFrom_get_second _ _ _ _ _ (by decide), memcpy_fresh _ _ length_blockAA]

/-- C3 (what the code does): `init(1)`, then the 1026 distinct keys `(0,0) .. (0,1023)`,
`(1,0)`, `(1,1)` inserted at the strictly increasing clock readings 0..1025 with no
intervening `get` (capacity + k keys for k = 2).  The last put overwrites the entry of
`(1,0)`: the second most recently inserted key is absent afterwards, and 1024 slots are in
use. -/
theorem recent_key_lost_after_overflow :
    init_raid_cache 1 true = some cache1 ∧
    (get_raid_cache (runCalls cache1 (fillCalls blockAA 1024 ++
        [CacheCall.put 1 0 block55 1024 true true,
         CacheCall.put 1 1 block55 1025 true true])) 1 0 1026).1 = none ∧
    initialized (runCalls cache1 (fillCalls blockAA 1024 ++
        [CacheCall.put 1 0 block55 1024 true true,
         CacheCall.put 1 1 block55 1025 true true])) = 1024 := by
  have hstate : runCalls cache1 (fillCalls blockAA (1022 + 2) ++
        [CacheCall.put 1 0 block55 1024 true true,
         CacheCall.put 1 1 block55 1025 true true]) =
      filledFrom blockAA 1024 1022
        { clkTick := 1025, disk := 1, blockID := 1,
          buffer := memcpy (memcpy (fillEntry blockAA (toSizeT 1024) 0).buffer block55
            (toSizeT 1024)) block55 (toSizeT 1024) } := by
    rw [runCalls_append, cache1, runCalls_fill_filledFrom _ _ _ (by decide)]
    have hp1 := filledFrom_put_evict blockAA 1024 1022 (fillEntry blockAA (toSizeT 1024) 0)
      rfl 1 0 block55 1024 true true (by decide) (Or.inl (by decide)) (by omega)
    have hp2 := filledFrom_put_evict blockAA 1024 1022
      { clkTick := 1024, disk := 1, blockID := 0,
        buffer := memcpy (fillEntry blockAA (toSizeT 1024) 0).buffer block55 (toSizeT 1024) }
      rfl 1 1 block55 1025 true true (by decide) (Or.inl (by decide)) (by omega)
    simp only [runCalls, List.foldl_cons, List.foldl_nil, stepCall]
    rw [hp1, hp2]
  refine ⟨rfl, ?_, ?_⟩
  · rw [show (1024 : Nat) = 1022 + 2 from rfl, hstate]
    exact (get_fst_eq_none_iff _ 1 0 1026).mpr
      (filledFrom_findSlot_none blockAA 1024 1022 _ 1 0 (by decide) (Or.inr rfl))
  · rw [show (1024 : Nat) = 1022 + 2 from rfl, hstate]
    simp [initialized, filledFrom]

/-- C4 (what the code does): after `init(1)`, `put(0,0)` at clock 0, `put(0,1)` at clock 1
and `get(0,0)` at clock 2, the pointer `leastRecent` refers to slot 0, whose `clkTick` is
2, while slot 1 holds the smaller `clkTick` 1. -/
theorem leastRecent_not_oldest :
    init_raid_cache 1 true = some cache1 ∧
    (runCalls cache1 [CacheCall.put 0 0 blockAA 0 true true,
      CacheCall.put 0 1 blockAA 1 true true, CacheCall.get 0 0 2]).leastRecent = some 0 ∧
    (runCalls cache1 [CacheCall.put 0 0 blockAA 0 true true,
      CacheCall.put 0 1 blockAA 1 true true, CacheCall.get 0 0 2]).cache.map (·.clkTick)
      = [2, 1] := by
  decide

/-- C6 (what the code does): after `init(1)` and `put(3, 7, [0xAA; 1024])` at clock 10, a
`put(3, 7, [0x55; 1024])` at clock 20 returns 0 and overwrites the buffer in place, but the
entry keeps `clkTick` 10: the existing-key path takes no clock reading. -/
theorem put_existing_keeps_clkTick :
    init_raid_cache 1 true = some cache1 ∧
    (put_raid_cache (put_raid_cache cache1 3 7 blockAA 10 true true).2
      3 7 block55 20 true true).1 = 0 ∧
    (put_raid_cache (put_raid_cache cache1 3 7 blockAA 10 true true).2
      3 7 block55 20 true true).2.cache.map (fun e => (e.clkTick, e.disk, e.blockID))
      = [(10, 3, 7)] ∧
    (get_raid_cache (put_raid_cache (put_raid_cache cache1 3 7 blockAA 10 true true).2
      3 7 block55 20 true true).2 3 7 30).1 = some block55 := by
  refine ⟨rfl, by decide, by decide, ?_⟩
  rw [put_get_of_wf _ (Reachable.put _ _ _ _ _ _ _ (Reachable.init 1 cache1 rfl)).wf
    3 7 block55 20 30 true true (by decide), put_maxSize]
  exact congrArg some (List.take_of_length_le length_block55)

/-- C7 (what the code does): after `init_raid_cache(1)`, two puts of distinct keys leave
two entries stored: the argument of `init_raid_cache` does not bound the entry count. -/
theorem capacity_ignores_max_items :
    init_raid_cache 1 true = some cache1 ∧
    initialized (runCalls cache1 [CacheCall.put 0 0 blockAA 0 true true,
      CacheCall.put 0 1 blockAA 1 true true]) = 2 := by
  decide

/-! ## Byte order and command-word fields -/

theorem beBytes64_ofBE (b0 b1 b2 b3 b4 b5 b6 b7 : Nat) (h0 : b0 < 256) (h1 : b1 < 256)
    (h2 : b2 < 256) (h3 : b3 < 256) (h4 : b4 < 256) (h5 : b5 < 256) (h6 : b6 < 256)
    (h7 : b7 < 256) :
    beBytes64 (ofBE [b0, b1, b2, b3, b4, b5, b6, b7]) = [b0, b1, b2, b3, b4, b5, b6, b7] := by
  simp only [beBytes64, ofBE, List.foldl_cons, List.foldl_nil]
  norm_num
  refine ⟨?_, ?_, ?_, ?_, ?_, ?_, ?_, ?_⟩ <;> omega

theorem ofBE_beBytes64 (x : Nat) (h : x < 2 ^ 64) : ofBE (beBytes64 x) = x := by
  simp only [beBytes64, ofBE, List.foldl_cons, List.foldl_nil]
  omega

theorem beBytes64_ofBE_list (l : List Nat) (hl : l.length = 8) (hb : ∀ b ∈ l, b < 256) :
    beBytes64 (ofBE l) = l := by
  match l, hl with
  | [b0, b1, b2, b3, b4, b5, b6, b7], _ =>
    exact beBytes64_ofBE b0 b1 b2 b3 b4 b5 b6 b7 (hb _ (by simp)) (hb _ (by simp))
      (hb _ (by simp)) (hb _ (by simp)) (hb _ (by simp)) (hb _ (by simp)) (hb _ (by simp))
      (hb _ (by simp))

theorem length_beBytes64 (x : Nat) : (beBytes64 x).length = 8 := rfl

theorem beBytes64_lt (x b : Nat) (hb : b ∈ beBytes64 x) : b < 256 := by
  simp only [beBytes64, List.mem_cons, List.mem_singleton, List.not_mem_nil, or_false] at hb
  rcases hb with h | h | h | h | h | h | h | h <;> omega

/-- The memory bytes of `htonll64 x` are the network-order bytes of `x`, on either host. -/
theorem objBytes_htonll64 (le : Bool) (x : Nat) : objBytes le (htonll64 le x) = beBytes64 x := by
  cases le
  · simp only [objBytes, htonll64, objValue, if_false, Bool.false_eq_true]
    exact beBytes64_ofBE_list _ (length_beBytes64 x) (beBytes64_lt x)
  · simp only [objBytes, htonll64, objValue, if_true]
    rw [beBytes64_ofBE_list _ (by simp [length_beBytes64])
      (fun b hb => beBytes64_lt x b (List.mem_reverse.mp hb)), List.reverse_reverse]

theorem requestType_eq (op : Nat) (hop : op < 2 ^ 64) :
    op >>> SHIFT_FOR_REQUEST = op / 2 ^ 56 % 256 := by
  rw [SHIFT_FOR_REQUEST, Nat.shiftRight_eq_div_pow]
  omega

theorem blks_eq (op : Nat) :
    (op >>> SHIFT_FOR_BLOCKS) &&& STRUCTURE_FOR_BLOCKS = op / 2 ^ 48 % 256 := by
  rw [SHIFT_FOR_BLOCKS, STRUCTURE_FOR_BLOCKS, Nat.shiftRight_eq_div_pow]
  exact Nat.and_pow_two_sub_one_eq_mod _ 8

theorem testBit_or_failure (op i : Nat) (hi : i ≠ 32) :
    (op ||| FAILURE_STATUS).testBit i = op.testBit i := by
  rw [Nat.testBit_or, show FAILURE_STATUS = 2 ^ 32 from rfl, Nat.testBit_two_pow]
  simp [Ne.symm hi]

theorem testBit_or_failure_self (op : Nat) : (op ||| FAILURE_STATUS).testBit 32 = true := by
  rw [Nat.testBit_or, show FAILURE_STATUS = 2 ^ 32 from rfl, Nat.testBit_two_pow]
  simp

/-! ## The exchange -/

theorem bytesWritten_append (a b : List IOCall) :
    bytesWritten (a ++ b) = bytesWritten a ++ bytesWritten b := by
  induction a with
  | nil => rfl
  | cons c a ih => cases c <;> simp [bytesWritten, ih]

theorem transfers_append (a b : List IOCall) :
    transfers (a ++ b) = transfers a ++ transfers b := by
  induction a with
  | nil => rfl
  | cons c a ih => cases c <;> simp [transfers, ih]

/-- When the three writes are complete, the bytes an exchange puts on the stream are the
network-order word, the network-order length and the payload. -/
theorem exchange_bytesWritten (env : Env) (fd : Int) (op : Nat) (buf : List Nat)
    (rt len : Nat) (tr : List IOCall)
    (h1 : env.write1 = 8) (h2 : env.write2 = 8) (h3 : env.write3 = (len : Int)) :
    bytesWritten (exchange env fd op buf rt len tr).trace =
      bytesWritten tr ++ (beBytes64 op ++ beBytes64 len ++ buf.take len) := by
  have t8 : ∀ x, (beBytes64 x).take 8 = beBytes64 x := fun x => rfl
  unfold exchange
  simp only [h1, h2, h3, ne_eq, not_true_eq_false, if_false]
  split_ifs <;>
    simp [bytesWritten_append, bytesWritten, objBytes_htonll64, t8, List.take_take]

/-- A call that gets as far as the first write is the exchange, on the socket of the call,
with the payload length of the protocol. -/
theorem client_of_connects (env : Env) (sckt : Int) (op : Nat) (buf : List Nat)
    (hop : op < 2 ^ 64) (hc : connects env op = true) :
    ∃ pre, client_raid_bus_request env sckt op buf =
        exchange env (socketOf env sckt op) op buf (op >>> SHIFT_FOR_REQUEST) (payloadLen op) pre
      ∧ bytesWritten pre = [] ∧ transfers pre = [] := by
  unfold client_raid_bus_request
  by_cases hinit : op / 2 ^ 56 % 256 = 0
  · simp only [connects, hinit, if_true, Bool.and_eq_true, decide_eq_true_eq] at hc
    obtain ⟨⟨ha, hs⟩, hcn⟩ := hc
    refine ⟨[IOCall.connect env.socket], ?_, rfl, rfl⟩
    simp only [requestType_eq op hop, hinit, RAID_INIT, if_true, ha, hs, hcn, if_false,
      socketOf, payloadLen]
  · refine ⟨[], ?_, rfl, rfl⟩
    simp only [requestType_eq op hop, blks_eq, hinit, RAID_INIT, if_false, socketOf,
      payloadLen, RAID_BLOCK_SIZE]

/-- A call that fails to connect returns the failure word without any transfer. -/
theorem client_of_not_connects (env : Env) (sckt : Int) (op : Nat) (buf : List Nat)
    (hop : op < 2 ^ 64) (hc : connects env op = false) :
    (client_raid_bus_request env sckt op buf).ret = op ||| FAILURE_STATUS ∧
    transfers (client_raid_bus_request env sckt op buf).trace = [] := by
  unfold client_raid_bus_request
  by_cases hinit : op / 2 ^ 56 % 256 = 0
  · simp only [connects, hinit, if_true, Bool.and_eq_false_iff, decide_eq_false_iff_not,
      not_not] at hc
    simp only [requestType_eq op hop, hinit, RAID_INIT, if_true]
    split_ifs <;> first | exact ⟨rfl, rfl⟩ | omega
  · rw [connects, if_neg hinit] at hc
    cases hc

/-! ## The transport claims -/

/-- C9: for every 64-bit command word `op` and buffer `buf`, when the call reaches the
stream and none of the three writes is short, the bytes `client_raid_bus_request` writes
are, in order, the 8 network-order bytes of `op`, the 8 network-order bytes of `len` and the
first `len` bytes of `buf`, where `len` is 0 for an INIT request (bits 56-63 of `op`) and
otherwise the block count (bits 48-55) times 1024. -/
theorem request_bytes_on_wire (env : Env) (sckt : Int) (op : Nat) (buf : List Nat)
    (hop : op < 2 ^ 64) (hc : connects env op = true)
    (h1 : env.write1 = 8) (h2 : env.write2 = 8) (h3 : env.write3 = (payloadLen op : Int)) :
    bytesWritten (client_raid_bus_request env sckt op buf).trace =
      beBytes64 op ++ beBytes64 (payloadLen op) ++ buf.take (payloadLen op) := by
  obtain ⟨pre, hpre, hb, _⟩ := client_of_connects env sckt op buf hop hc
  rw [hpre, exchange_bytesWritten env _ op buf _ _ pre h1 h2 h3, hb, List.nil_append]

/-- Witness for C9: a WRITE of one block, all transfers complete. -/
theorem request_bytes_on_wire_witness :
    opWrite < 2 ^ 64 ∧ connects envEcho opWrite = true ∧ envEcho.write1 = 8 ∧
    envEcho.write2 = 8 ∧ envEcho.write3 = (payloadLen opWrite : Int) ∧
    bytesWritten (client_raid_bus_request envEcho 3 opWrite blockAA).trace =
      beBytes64 opWrite ++ beBytes64 (payloadLen opWrite) ++ blockAA.take (payloadLen opWrite) :=
  ⟨by decide, by decide, by decide, by decide, by decide,
   request_bytes_on_wire envEcho 3 opWrite blockAA (by decide) (by decide) (by decide)
     (by decide) (by decide)⟩

/-- An exchange in which transfer `k` is the first with an unexpected byte count returns
the failure word after exactly the transfers `0 .. k`. -/
theorem exchange_short (env : Env) (fd : Int) (op : Nat) (buf : List Nat)
    (rt len : Nat) (tr : List IOCall) (k : Nat)
    (hk : List.findIdx? (fun c : Int × Int => decide (c.1 ≠ c.2))
      [(8, env.write1), (8, env.write2), ((len : Nat), env.write3),
       (8, env.read1), (8, env.read2), ((len : Nat), env.read3)] = some k) :
    (exchange env fd op buf rt len tr).ret = op ||| FAILURE_STATUS ∧
    transfers (exchange env fd op buf rt len tr).trace = transfers tr ++
      List.take (k + 1)
        [IOCall.write fd (beBytes64 op) env.write1,
         IOCall.write fd (beBytes64 len) env.write2,
         IOCall.write fd (buf.take len) env.write3,
         IOCall.read fd 8 env.read1,
         IOCall.read fd 8 env.read2,
         IOCall.read fd len env.read3] := by
  unfold exchange
  by_cases h1 : env.write1 = 8
  · by_cases h2 : env.write2 = 8
    · by_cases h3 : env.write3 = (len : Int)
      · by_cases h4 : env.read1 = 8
        · by_cases h5 : env.read2 = 8
          · by_cases h6 : env.read3 = (len : Int)
            · simp [h1, h2, h3, h4, h5, h6] at hk
            · have h6s : ¬ (len : Int) = env.read3 := fun h => h6 h.symm
              simp only [List.findIdx?_cons, h1, h2, h3, h4, h5, h6s, ne_eq, not_true_eq_false,
                decide_False, Bool.false_eq_true, if_false, not_false_eq_true, decide_True,
                if_true, Option.some.injEq] at hk
              subst hk
              simp [h1, h2, h3, h4, h5, h6, transfers_append, transfers, objBytes_htonll64]
          · have h5s : ¬ (8 : Int) = env.read2 := fun h => h5 h.symm
            simp only [List.findIdx?_cons, h1, h2, h3, h4, h5s, ne_eq, not_true_eq_false,
              decide_False, Bool.false_eq_true, if_false, not_false_eq_true, decide_True,
              if_true, Option.some.injEq] at hk
            subst hk
            simp [h1, h2, h3, h4, h5, transfers_append, transfers, objBytes_htonll64]
        · have h4s : ¬ (8 : Int) = env.read1 := fun h => h4 h.symm
          simp only [List.findIdx?_cons, h1, h2, h3, h4s, ne_eq, not_true_eq_false,
            decide_False, Bool.false_eq_true, if_false, not_false_eq_true, decide_True,
            if_true, Option.some.injEq] at hk
          subst hk
          simp [h1, h2, h3, h4, transfers_append, transfers, objBytes_htonll64]
      · have h3s : ¬ (len : Int) = env.write3 := fun h => h3 h.symm
        simp only [List.findIdx?_cons, h1, h2, h3s, ne_eq, not_true_eq_false,
          decide_False, Bool.false_eq_true, if_false, not_false_eq_true, decide_True,
          if_true, Option.some.injEq] at hk
        subst hk
        simp [h1, h2, h3, transfers_append, transfers, objBytes_htonll64]
    · have h2s : ¬ (8 : Int) = env.write2 := fun h => h2 h.symm
      simp only [List.findIdx?_cons, h1, h2s, ne_eq, not_true_eq_false,
        decide_False, Bool.false_eq_true, if_false, not_false_eq_true, decide_True,
        if_true, Option.some.injEq] at hk
      subst hk
      simp [h1, h2, transfers_append, transfers, objBytes_htonll64]
  · have h1s : ¬ (8 : Int) = env.write1 := fun h => h1 h.symm
    simp only [List.findIdx?_cons, h1s, ne_eq, not_false_eq_true, decide_True,
      if_true, Option.some.injEq] at hk
    subst hk
    simp [h1, transfers_append, transfers, objBytes_htonll64]

/-- C10: for every 64-bit request word `op` and buffer `buf`, if transfer `k` is the first
of the six transfers of the exchange to move a byte count different from the expected one,
then `client_raid_bus_request` returns `op` with the status bit (bit 32) set and every other
bit as in `op`, and the reads and writes it performs are exactly transfers `0 .. k`, each
once and none after the failed one (none at all if the connection was not established). -/
theorem short_transfer_abandons (env : Env) (sckt : Int) (op : Nat) (buf : List Nat) (k : Nat)
    (hop : op < 2 ^ 64) (hk : firstShort env op = some k) :
    (client_raid_bus_request env sckt op buf).ret = op ||| FAILURE_STATUS ∧
    (client_raid_bus_request env sckt op buf).ret.testBit 32 = true ∧
    (∀ i, i ≠ 32 → (client_raid_bus_request env sckt op buf).ret.testBit i = op.testBit i) ∧
    transfers (client_raid_bus_request env sckt op buf).trace =
      if connects env op then (sixTransfers env sckt op buf).take (k + 1) else [] := by
  have hret_tr : (client_raid_bus_request env sckt op buf).ret = op ||| FAILURE_STATUS ∧
      transfers (client_raid_bus_request env sckt op buf).trace =
        if connects env op then (sixTransfers env sckt op buf).take (k + 1) else [] := by
    cases hc : connects env op with
    | false =>
      have h := client_of_not_connects env sckt op buf hop hc
      exact ⟨h.1, by simpa using h.2⟩
    | true =>
      obtain ⟨pre, hpre, _, ht⟩ := client_of_connects env sckt op buf hop hc
      have h := exchange_short env (socketOf env sckt op) op buf (op >>> SHIFT_FOR_REQUEST)
        (payloadLen op) pre k hk
      rw [hpre]
      refine ⟨h.1, ?_⟩
      rw [h.2, ht]
      simp [sixTransfers]
  refine ⟨hret_tr.1, ?_, ?_, hret_tr.2⟩
  · rw [hret_tr.1]; exact testBit_or_failure_self op
  · intro i hi
    rw [hret_tr.1]; exact testBit_or_failure op i hi

/-- Witness for C10: the first read returns 5 of 8 bytes; the call stops after it. -/
theorem short_transfer_abandons_witness :
    opWrite < 2 ^ 64 ∧ firstShort envShortRead opWrite = some 3 ∧
    (client_raid_bus_request envShortRead 3 opWrite blockAA).ret = opWrite ||| FAILURE_STATUS ∧
    (client_raid_bus_request envShortRead 3 opWrite blockAA).ret.testBit 32 = true ∧
    (∀ i, i ≠ 32 →
      (client_raid_bus_request envShortRead 3 opWrite blockAA).ret.testBit i
        = opWrite.testBit i) ∧
    transfers (client_raid_bus_request envShortRead 3 opWrite blockAA).trace =
      if connects envShortRead opWrite then
        (sixTransfers envShortRead 3 opWrite blockAA).take (3 + 1)
      else [] :=
  ⟨by decide, by decide,
   short_transfer_abandons envShortRead 3 opWrite blockAA 3 (by decide) (by decide)⟩

/-! ## What `calc_least_recent` computes -/

/-- Loop invariant of `calc_least_recent`: if `best` holds the largest `clkTick` of the
slots before `i` and is the first slot to do so, the loop ends on the first slot holding
the largest `clkTick` of all slots. -/
theorem calcScan_spec (l : List CacheEntry) (es : List CacheEntry) (i best : Nat) (bclk : Int)
    (hes : l.drop i = es) (hi : i ≤ l.length) (hb : best < i)
    (hbc : ∃ eb, l[best]? = some eb ∧ eb.clkTick = bclk)
    (hmax : ∀ (k : Nat) (e : CacheEntry), k < i → l[k]? = some e → e.clkTick ≤ bclk)
    (hfirst : ∀ (k : Nat) (e : CacheEntry), k < best → l[k]? = some e → e.clkTick < bclk) :
    ∃ ej, l[calcScan es i best bclk]? = some ej ∧
      (∀ (k : Nat) (e : CacheEntry), l[k]? = some e → e.clkTick ≤ ej.clkTick) ∧
      (∀ (k : Nat) (e : CacheEntry), k < calcScan es i best bclk → l[k]? = some e → e.clkTick < ej.clkTick) := by
  induction es generalizing i best bclk with
  | nil =>
    have hlen : l.length ≤ i := List.drop_eq_nil_iff.mp hes
    obtain ⟨eb, heb, rfl⟩ := hbc
    refine ⟨eb, heb, ?_, hfirst⟩
    intro k e hk
    have hkl : k < l.length := (List.getElem?_eq_some_iff.mp hk).1
    exact hmax k e (by omega) hk
  | cons e es ih =>
    have hil : i < l.length := by
      by_contra hcon
      have : l.drop i = [] := List.drop_eq_nil_iff.mpr (by omega)
      rw [this] at hes; cases hes
    have hei : l[i]? = some e := by
      have h := congrArg (fun x => x[0]?) hes
      simpa [List.getElem?_drop] using h
    have hes2 : l.drop (i + 1) = es := by
      have h := congrArg List.tail hes
      simpa [List.drop_drop, List.tail_drop, Nat.add_comm] using h
    simp only [calcScan]
    split
    · next hgt =>
      apply ih (i + 1) i e.clkTick hes2 (by omega) (by omega) ⟨e, hei, rfl⟩
      · intro k e2 hk hk2
        by_cases hki : k = i
        · subst hki
          rw [hei] at hk2; cases hk2; exact le_refl _
        · have := hmax k e2 (by omega) hk2
          omega
      · intro k e2 hk hk2
        have := hmax k e2 hk hk2
        omega
    · next hng =>
      apply ih (i + 1) best bclk hes2 (by omega) (by omega) hbc
      · intro k e2 hk hk2
        by_cases hki : k = i
        · subst hki
          rw [hei] at hk2; cases hk2; omega
        · exact hmax k e2 (by omega) hk2
      · exact hfirst

/-- C15: for every non-empty cache, `calc_least_recent` sets `leastRecent` to a stored
entry whose `clkTick` is the maximum over all stored entries, and among the entries with
that maximum to the one in the lowest slot (every earlier slot has a strictly smaller
`clkTick`); the entries and `maxSize` are unchanged. -/
theorem calc_least_recent_picks_first_max (s : RaidCache) (hne : s.cache ≠ []) :
    ∃ j ej, (calc_least_recent s).leastRecent = some j ∧ s.cache[j]? = some ej ∧
      (∀ (k : Nat) (e : CacheEntry), s.cache[k]? = some e → e.clkTick ≤ ej.clkTick) ∧
      (∀ (k : Nat) (e : CacheEntry), k < j → s.cache[k]? = some e → e.clkTick < ej.clkTick) ∧
      (calc_least_recent s).cache = s.cache ∧
      (calc_least_recent s).maxSize = s.maxSize := by
  cases hc : s.cache with
  | nil => exact absurd hc hne
  | cons e0 es =>
    obtain ⟨ej, hj, hmax, hfirst⟩ := calcScan_spec (e0 :: es) es 1 0 e0.clkTick rfl
      (by simp) (by omega) ⟨e0, by simp, rfl⟩
      (fun k e hk hke => by
        have hk0 : k = 0 := by omega
        subst hk0
        simp only [List.getElem?_cons_zero, Option.some.injEq] at hke
        subst hke
        exact le_refl _)
      (fun k e hk _ => absurd hk (Nat.not_lt_zero k))
    refine ⟨calcScan es 1 0 e0.clkTick, ej, ?_, hj, hmax, hfirst, ?_, ?_⟩
    · simp only [calc_least_recent, hc]
    · rw [calc_least_recent_cache, hc]
    · exact calc_least_recent_maxSize s

/-- Witness for C15: with `clkTick`s 1, 5, 5, 3 the pointer is set to slot 1. -/
theorem calc_least_recent_picks_first_max_witness :
    cacheTies.cache ≠ [] ∧ (calc_least_recent cacheTies).leastRecent = some 1 ∧
    ∃ j ej, (calc_least_recent cacheTies).leastRecent = some j ∧
      cacheTies.cache[j]? = some ej ∧
      (∀ (k : Nat) (e : CacheEntry), cacheTies.cache[k]? = some e → e.clkTick ≤ ej.clkTick) ∧
      (∀ (k : Nat) (e : CacheEntry), k < j → cacheTies.cache[k]? = some e →
        e.clkTick < ej.clkTick) ∧
      (calc_least_recent cacheTies).cache = cacheTies.cache ∧
      (calc_least_recent cacheTies).maxSize = cacheTies.maxSize :=
  ⟨by decide, by decide, calc_least_recent_picks_first_max cacheTies (by decide)⟩

/-! ## Structural invariant -/

theorem initialized_get (s : RaidCache) (dsk blk : Nat) (now : Int) :
    initialized (get_raid_cache s dsk blk now).2 = initialized s := by
  have h := congrArg List.length (get_cache_keys s dsk blk now)
  simpa [initialized] using h

theorem initialized_put_of_full (s : RaidCache) (dsk blk : Nat) (buf : List Nat) (now : Int)
    (me mb : Bool) (hfull : initialized s = TAGLINE_CACHE_SIZE) :
    initialized (put_raid_cache s dsk blk buf now me mb).2 = TAGLINE_CACHE_SIZE := by
  unfold put_raid_cache
  split
  · simpa [initialized, length_updateSlot] using hfull
  · rw [if_pos hfull]
    split
    · simpa [initialized, calc_least_recent_cache, length_updateSlot] using hfull
    · simpa [initialized, calc_least_recent_cache] using hfull

/-- The eviction branch on a well-formed full cache: the slot `leastRecent` refers to is
in use and is the one overwritten. -/
theorem put_evicts_live (s : RaidCache) (hs : WF s) (dsk blk : Nat) (buf : List Nat)
    (now : Int) (me mb : Bool) (hfull : initialized s = TAGLINE_CACHE_SIZE)
    (hnone : findSlot dsk blk s.cache = none) :
    ∃ j old, s.leastRecent = some j ∧ s.cache[j]? = some old ∧
      (put_raid_cache s dsk blk buf now me mb).2.cache[j]? =
        some { clkTick := now, disk := dsk, blockID := blk,
               buffer := memcpy old.buffer buf (toSizeT s.maxSize) } ∧
      ∀ i, i ≠ j → (put_raid_cache s dsk blk buf now me mb).2.cache[i]? = s.cache[i]? := by
  have hne : s.cache ≠ [] := by
    intro hnil; simp [initialized, hnil, TAGLINE_CACHE_SIZE] at hfull
  obtain ⟨j, hj, hlt⟩ := hs.lr hne
  refine ⟨j, s.cache[j], hj, by simp [hlt], ?_, ?_⟩
  · simp only [put_raid_cache, hnone, hfull, if_true, hj, calc_least_recent_cache]
    rw [get?_updateSlot]
    simp [hlt]
  · intro i hi
    simp only [put_raid_cache, hnone, hfull, if_true, hj, calc_least_recent_cache]
    rw [get?_updateSlot, if_neg hi]

/-- C16: in every state reachable from `init_raid_cache` by `put`/`get` calls,
`initialized` is at most `TAGLINE_CACHE_SIZE`, and when it is positive `leastRecent`
refers to a slot in `0 .. initialized-1`; hence the eviction branch of `put_raid_cache`
overwrites exactly that stored entry and leaves the other slots alone, and once
`initialized` has reached `TAGLINE_CACHE_SIZE` no `put` or `get` changes it. -/
theorem structural_invariant (s : RaidCache) (hs : Reachable s) :
    initialized s ≤ TAGLINE_CACHE_SIZE ∧
    (0 < initialized s → ∃ j, s.leastRecent = some j ∧ j < initialized s) ∧
    (∀ (dsk blk : Nat) (buf : List Nat) (now : Int) (me mb : Bool),
      initialized s = TAGLINE_CACHE_SIZE → findSlot dsk blk s.cache = none →
      ∃ j old, s.leastRecent = some j ∧ s.cache[j]? = some old ∧
        (put_raid_cache s dsk blk buf now me mb).2.cache[j]? =
          some { clkTick := now, disk := dsk, blockID := blk,
                 buffer := memcpy old.buffer buf (toSizeT s.maxSize) } ∧
        ∀ i, i ≠ j → (put_raid_cache s dsk blk buf now me mb).2.cache[i]? = s.cache[i]?) ∧
    (∀ (dsk blk : Nat) (buf : List Nat) (now : Int) (me mb : Bool),
      initialized s = TAGLINE_CACHE_SIZE →
      initialized (put_raid_cache s dsk blk buf now me mb).2 = TAGLINE_CACHE_SIZE) ∧
    (∀ (dsk blk : Nat) (now : Int),
      initialized (get_raid_cache s dsk blk now).2 = initialized s) := by
  have hwf := hs.wf
  refine ⟨hwf.size, ?_, ?_, ?_, ?_⟩
  · intro hpos
    exact hwf.lr (by intro hnil; simp [initialized, hnil] at hpos)
  · intro dsk blk buf now me mb hfull hnone
    exact put_evicts_live s hwf dsk blk buf now me mb hfull hnone
  · intro dsk blk buf now me mb hfull
    exact initialized_put_of_full s dsk blk buf now me mb hfull
  · intro dsk blk now
    exact initialized_get s dsk blk now

/-- Witness for C16: the full cache after `init(1)` and 1024 cold fills. -/
theorem structural_invariant_witness :
    Reachable (runCalls cache1 (fillCalls blockAA 1024)) ∧
    initialized (runCalls cache1 (fillCalls blockAA 1024)) ≤ TAGLINE_CACHE_SIZE ∧
    (0 < initialized (runCalls cache1 (fillCalls blockAA 1024)) →
      ∃ j, (runCalls cache1 (fillCalls blockAA 1024)).leastRecent = some j ∧
        j < initialized (runCalls cache1 (fillCalls blockAA 1024))) :=
  ⟨(Reachable.init 1 cache1 rfl).runCalls _,
   (structural_invariant _ ((Reachable.init 1 cache1 rfl).runCalls _)).1,
   (structural_invariant _ ((Reachable.init 1 cache1 rfl).runCalls _)).2.1⟩

/-! ## A completed exchange -/

/-- The six counts are all as expected when no transfer is the first short one. -/
theorem counts_of_firstShort_none (env : Env) (len : Nat)
    (hk : List.findIdx? (fun c : Int × Int => decide (c.1 ≠ c.2))
      [(8, env.write1), (8, env.write2), ((len : Nat), env.write3),
       (8, env.read1), (8, env.read2), ((len : Nat), env.read3)] = none) :
    env.write1 = 8 ∧ env.write2 = 8 ∧ env.write3 = (len : Int) ∧
    env.read1 = 8 ∧ env.read2 = 8 ∧ env.read3 = (len : Int) := by
  rw [List.findIdx?_eq_none_iff] at hk
  have h := fun c hc => of_decide_eq_false (hk c hc)
  simp only [ne_eq, not_not] at h
  refine ⟨(h (8, env.write1) (by simp)).symm, (h (8, env.write2) (by simp)).symm,
    (h ((len : Nat), env.write3) (by simp)).symm, (h (8, env.read1) (by simp)).symm,
    (h (8, env.read2) (by simp)).symm, (h ((len : Nat), env.read3) (by simp)).symm⟩

/-- An exchange whose six transfers are complete returns the host value of the 8 bytes
read, leaves in the buffer the `len` bytes read and makes exactly the six transfers. -/
theorem exchange_complete (env : Env) (fd : Int) (op : Nat) (buf : List Nat)
    (rt len : Nat) (tr : List IOCall)
    (h1 : env.write1 = 8) (h2 : env.write2 = 8) (h3 : env.write3 = (len : Int))
    (h4 : env.read1 = 8) (h5 : env.read2 = 8) (h6 : env.read3 = (len : Int)) :
    (exchange env fd op buf rt len tr).ret =
      ntohll64 env.littleEndian (objValue env.littleEndian (env.respOp.take 8)) ∧
    (exchange env fd op buf rt len tr).buf = memcpy buf env.respBuf len ∧
    transfers (exchange env fd op buf rt len tr).trace = transfers tr ++
      [IOCall.write fd (beBytes64 op) env.write1,
       IOCall.write fd (beBytes64 len) env.write2,
       IOCall.write fd (buf.take len) env.write3,
       IOCall.read fd 8 env.read1,
       IOCall.read fd 8 env.read2,
       IOCall.read fd len env.read3] := by
  unfold exchange
  simp only [h1, h2, h3, h4, h5, h6, ne_eq, not_true_eq_false, if_false]
  split_ifs <;>
    simp [transfers_append, transfers, objBytes_htonll64]

/-- Reading back a well-formed 8-byte word: the network-to-host conversion of the value
stored in memory is the big-endian value of the bytes. -/
theorem ntohll64_objValue (le : Bool) (bs : List Nat) (hl : bs.length = 8)
    (hb : ∀ b ∈ bs, b < 256) : ntohll64 le (objValue le bs) = ofBE bs := by
  cases le
  · simp only [ntohll64, objBytes, objValue, if_false, Bool.false_eq_true]
    rw [beBytes64_ofBE_list bs hl hb]
  · simp only [ntohll64, objBytes, objValue, if_true]
    rw [beBytes64_ofBE_list _ (by simpa using hl) (fun b h => hb b (List.mem_reverse.mp h)),
      List.reverse_reverse]

/-- A call that reaches the stream and whose six transfers are complete returns the word
the peer sent, stores the payload read and makes exactly the six transfers. -/
theorem client_complete (env : Env) (sckt : Int) (op : Nat) (buf : List Nat)
    (hop : op < 2 ^ 64) (hc : connects env op = true) (hk : firstShort env op = none) :
    (client_raid_bus_request env sckt op buf).ret =
      ntohll64 env.littleEndian (objValue env.littleEndian (env.respOp.take 8)) ∧
    (client_raid_bus_request env sckt op buf).buf = memcpy buf env.respBuf (payloadLen op) ∧
    transfers (client_raid_bus_request env sckt op buf).trace =
      sixTransfers env sckt op buf := by
  obtain ⟨pre, hpre, _, ht⟩ := client_of_connects env sckt op buf hop hc
  obtain ⟨h1, h2, h3, h4, h5, h6⟩ := counts_of_firstShort_none env (payloadLen op) hk
  have h := exchange_complete env (socketOf env sckt op) op buf (op >>> SHIFT_FOR_REQUEST)
    (payloadLen op) pre h1 h2 h3 h4 h5 h6
  rw [hpre]
  refine ⟨h.1, h.2.1, ?_⟩
  rw [h.2.2, ht]
  rfl

/-- The reads and writes of a call are an initial part of the six transfers. -/
theorem transfers_prefix (env : Env) (sckt : Int) (op : Nat) (buf : List Nat)
    (hop : op < 2 ^ 64) :
    transfers (client_raid_bus_request env sckt op buf).trace <+: sixTransfers env sckt op buf := by
  cases hc : connects env op with
  | false =>
    rw [(client_of_not_connects env sckt op buf hop hc).2]
    exact List.nil_prefix
  | true =>
    cases hk : firstShort env op with
    | none =>
      rw [(client_complete env sckt op buf hop hc hk).2.2]
    | some k =>
      obtain ⟨pre, hpre, _, ht⟩ := client_of_connects env sckt op buf hop hc
      have h := exchange_short env (socketOf env sckt op) op buf (op >>> SHIFT_FOR_REQUEST)
        (payloadLen op) pre k hk
      rw [hpre, h.2, ht]
      exact List.take_prefix _ _

theorem shiftRight_or_failure (a n : Nat) (hn : 32 < n) :
    (a ||| FAILURE_STATUS) >>> n = a >>> n := by
  apply Nat.eq_of_testBit_eq
  intro i
  rw [Nat.testBit_shiftRight, Nat.testBit_shiftRight, Nat.testBit_or,
    show FAILURE_STATUS = 2 ^ 32 from rfl, Nat.testBit_two_pow]
  have : ¬ (32 = n + i) := by omega
  simp [this]

theorem failDiskOp_eq (d : Nat) (hd : d < 256) : failDiskOp d = 7 * 2 ^ 56 + d * 2 ^ 40 := by
  have hlt : d * 2 ^ 40 < 2 ^ 56 := by omega
  rw [failDiskOp, RAID_DISKFAIL, Nat.shiftLeft_eq, Nat.shiftLeft_eq, Nat.mul_comm 7,
    ← Nat.mul_add_lt_is_or hlt 7]

/-! ## The remaining transport claims -/

/-- C11 (what the code does): for disk 2, when the first write of the transport call fails
the call returns the request word with the status bit set, and when the peer answers with
the status bit set the response carries it; in both cases `remote_raid_fail_disk` returns
0, because it compares only the request type and the disk id of the response. -/
theorem fail_disk_hides_failures :
    (client_raid_bus_request envWriteFails 3 (failDiskOp 2) []).ret
      = failDiskOp 2 ||| FAILURE_STATUS ∧
    (remote_raid_fail_disk envWriteFails 3 2).1 = 0 ∧
    firstShort envStatusSet (failDiskOp 2) = none ∧
    (client_raid_bus_request envStatusSet 3 (failDiskOp 2) []).ret.testBit 32 = true ∧
    (remote_raid_fail_disk envStatusSet 3 2).1 = 0 := by
  decide

theorem fieldReqType_eq (x : Nat) : fieldReqType x = x / 2 ^ 56 % 256 := by
  rw [fieldReqType, Nat.shiftRight_eq_div_pow]
  exact Nat.and_pow_two_sub_one_eq_mod _ 8

theorem fieldDiskId_eq (x : Nat) : fieldDiskId x = x / 2 ^ 40 % 256 := by
  rw [fieldDiskId, Nat.shiftRight_eq_div_pow]
  exact Nat.and_pow_two_sub_one_eq_mod _ 8

/-- The request type and the disk id of a word are bytes 0 and 2 of its network-order
encoding. -/
theorem fields_of_ofBE (bs : List Nat) (hl : bs.length = 8) (hb : ∀ b ∈ bs, b < 256) :
    bs[0]? = some (fieldReqType (ofBE bs)) ∧ bs[2]? = some (fieldDiskId (ofBE bs)) := by
  have h := beBytes64_ofBE_list bs hl hb
  constructor
  · conv_lhs => rw [← h]
    rw [fieldReqType_eq]; rfl
  · conv_lhs => rw [← h]
    rw [fieldDiskId_eq]; rfl

/-- C12 (counterexample): the peer answers a DISKFAIL request for disk 2 with a READ word
for disk 5; every transfer is complete, and the returned word has request type 3 and disk
id 5, not the 7 and 2 of the request. -/
theorem returned_word_differs :
    failDiskOp 2 < 2 ^ 64 ∧
    fieldReqType (client_raid_bus_request envOtherWord 3 (failDiskOp 2) []).ret = 3 ∧
    fieldReqType (failDiskOp 2) = 7 ∧
    fieldDiskId (client_raid_bus_request envOtherWord 3 (failDiskOp 2) []).ret = 5 ∧
    fieldDiskId (failDiskOp 2) = 2 ∧
    ¬ (fieldReqType (client_raid_bus_request envOtherWord 3 (failDiskOp 2) []).ret
          = fieldReqType (failDiskOp 2) ∧
       fieldDiskId (client_raid_bus_request envOtherWord 3 (failDiskOp 2) []).ret
          = fieldDiskId (failDiskOp 2)) := by
  decide

/-- C12 (amended): for every 64-bit request word `op`, when the call fails (no connection,
or a transfer of unexpected size) the returned word is `op` with the status bit set, so it
has the request type and the disk id of `op` and differs from `op` at most in bit 32,
whatever the peer sent; when the exchange completes and the peer delivered a well-formed
8-byte word, the returned word is the word encoded by those 8 bytes, and its request type
and disk id are bytes 0 and 2 of them. -/
theorem returned_word_spec (env : Env) (sckt : Int) (op : Nat) (buf : List Nat)
    (hop : op < 2 ^ 64) :
    ((connects env op = false ∨ firstShort env op ≠ none) →
      (client_raid_bus_request env sckt op buf).ret = op ||| FAILURE_STATUS ∧
      fieldReqType (client_raid_bus_request env sckt op buf).ret = fieldReqType op ∧
      fieldDiskId (client_raid_bus_request env sckt op buf).ret = fieldDiskId op ∧
      ∀ i, i ≠ 32 → (client_raid_bus_request env sckt op buf).ret.testBit i = op.testBit i) ∧
    ((connects env op = true ∧ firstShort env op = none ∧ wordOk env) →
      (client_raid_bus_request env sckt op buf).ret = ofBE (env.respOp.take 8) ∧
      (env.respOp.take 8)[0]? =
        some (fieldReqType (client_raid_bus_request env sckt op buf).ret) ∧
      (env.respOp.take 8)[2]? =
        some (fieldDiskId (client_raid_bus_request env sckt op buf).ret)) := by
  constructor
  · intro hfail
    have hret : (client_raid_bus_request env sckt op buf).ret = op ||| FAILURE_STATUS := by
      cases hc : connects env op with
      | false => exact (client_of_not_connects env sckt op buf hop hc).1
      | true =>
        cases hk : firstShort env op with
        | none =>
          rcases hfail with h | h
          · rw [hc] at h; cases h
          · exact absurd hk h
        | some k =>
          obtain ⟨pre, hpre, _, _⟩ := client_of_connects env sckt op buf hop hc
          rw [hpre]
          exact (exchange_short env (socketOf env sckt op) op buf (op >>> SHIFT_FOR_REQUEST)
            (payloadLen op) pre k hk).1
    rw [hret]
    refine ⟨rfl, ?_, ?_, fun i hi => testBit_or_failure op i hi⟩
    · rw [fieldReqType, fieldReqType, shiftRight_or_failure op 56 (by omega)]
    · rw [fieldDiskId, fieldDiskId, shiftRight_or_failure op 40 (by omega)]
  · intro hok
    obtain ⟨hc, hk, hw⟩ := hok
    have hlen : (env.respOp.take 8).length = 8 := by
      rw [List.length_take]; exact Nat.min_eq_left hw.1
    have hret : (client_raid_bus_request env sckt op buf).ret = ofBE (env.respOp.take 8) := by
      rw [(client_complete env sckt op buf hop hc hk).1]
      exact ntohll64_objValue _ _ hlen hw.2
    rw [hret]
    exact ⟨rfl, fields_of_ofBE _ hlen hw.2⟩

/-- Witness for the amended C12.  Failing call: the peer delivers 5 bytes to the first
read (not a well-formed word) and the request word comes back with the status bit set.
Completed exchange: the peer answers a DISKFAIL request for disk 2 with a READ word for
disk 5, which is returned. -/
theorem returned_word_spec_witness :
    failDiskOp 2 < 2 ^ 64 ∧
    (firstShort envFiveBytes (failDiskOp 2) = some 3 ∧ ¬ wordOk envFiveBytes ∧
      (client_raid_bus_request envFiveBytes 3 (failDiskOp 2) []).ret
        = failDiskOp 2 ||| FAILURE_STATUS ∧
      fieldReqType (client_raid_bus_request envFiveBytes 3 (failDiskOp 2) []).ret
        = fieldReqType (failDiskOp 2) ∧
      fieldDiskId (client_raid_bus_request envFiveBytes 3 (failDiskOp 2) []).ret
        = fieldDiskId (failDiskOp 2)) ∧
    (connects envOtherWord (failDiskOp 2) = true ∧
      firstShort envOtherWord (failDiskOp 2) = none ∧ wordOk envOtherWord ∧
      (client_raid_bus_request envOtherWord 3 (failDiskOp 2) []).ret
        = ofBE (envOtherWord.respOp.take 8) ∧
      (envOtherWord.respOp.take 8)[0]? =
        some (fieldReqType (client_raid_bus_request envOtherWord 3 (failDiskOp 2) []).ret) ∧
      (envOtherWord.respOp.take 8)[2]? =
        some (fieldDiskId (client_raid_bus_request envOtherWord 3 (failDiskOp 2) []).ret)) :=
  ⟨by decide,
   ⟨by decide, by decide,
    ((returned_word_spec envFiveBytes 3 (failDiskOp 2) [] (by decide)).1
      (Or.inr (by decide))).1,
    ((returned_word_spec envFiveBytes 3 (failDiskOp 2) [] (by decide)).1
      (Or.inr (by decide))).2.1,
    ((returned_word_spec envFiveBytes 3 (failDiskOp 2) [] (by decide)).1
      (Or.inr (by decide))).2.2.1⟩,
   ⟨by decide, by decide, by decide,
    (returned_word_spec envOtherWord 3 (failDiskOp 2) [] (by decide)).2
      ⟨by decide, by decide, by decide⟩⟩⟩

theorem objValue_objBytes (le : Bool) (x : Nat) (hx : x < 2 ^ 64) :
    objValue le (objBytes le x) = x := by
  cases le
  · simp only [objValue, objBytes, if_false, Bool.false_eq_true]
    exact ofBE_beBytes64 x hx
  · simp only [objValue, objBytes, if_true, List.reverse_reverse]
    exact ofBE_beBytes64 x hx

theorem length_objBytes (le : Bool) (x : Nat) : (objBytes le x).length = 8 := by
  cases le <;> simp [objBytes, length_beBytes64]

theorem objBytes_lt (le : Bool) (x b : Nat) (hb : b ∈ objBytes le x) : b < 256 := by
  cases le
  · exact beBytes64_lt x b (by simpa [objBytes] using hb)
  · exact beBytes64_lt x b (by simpa [objBytes] using hb)

theorem ntohll64_htonll64 (le : Bool) (x : Nat) (hx : x < 2 ^ 64) :
    ntohll64 le (htonll64 le x) = x := by
  rw [ntohll64, objBytes_htonll64, ofBE_beBytes64 x hx]

theorem htonll64_ntohll64 (le : Bool) (x : Nat) (hx : x < 2 ^ 64) :
    htonll64 le (ntohll64 le x) = x := by
  rw [htonll64, ntohll64, beBytes64_ofBE_list _ (length_objBytes le x) (objBytes_lt le x),
    objValue_objBytes le x hx]

/-- C13: the two 64-bit byte-order conversions are mutually inverse on every 64-bit value
and either host byte order, and a request word whose 8 network-order bytes the peer echoes
unchanged in a completed exchange is returned by `client_raid_bus_request` equal to the
word sent. -/
theorem byte_order_inverse (x : Nat) (hx : x < 2 ^ 64) :
    (∀ le : Bool, ntohll64 le (htonll64 le x) = x ∧ htonll64 le (ntohll64 le x) = x) ∧
    (∀ (env : Env) (sckt : Int) (buf : List Nat), connects env x = true →
      firstShort env x = none → env.respOp.take 8 = beBytes64 x →
      (client_raid_bus_request env sckt x buf).ret = x) := by
  refine ⟨fun le => ⟨ntohll64_htonll64 le x hx, htonll64_ntohll64 le x hx⟩, ?_⟩
  intro env sckt buf hc hk hecho
  rw [(client_complete env sckt x buf hx hc hk).1, hecho]
  exact ntohll64_htonll64 env.littleEndian x hx

/-- Witness for C13: the word of `failDiskOp 2`, echoed by the peer. -/
theorem byte_order_inverse_witness :
    failDiskOp 2 < 2 ^ 64 ∧
    (∀ le : Bool, ntohll64 le (htonll64 le (failDiskOp 2)) = failDiskOp 2 ∧
      htonll64 le (ntohll64 le (failDiskOp 2)) = failDiskOp 2) ∧
    (client_raid_bus_request envEchoFail 3 (failDiskOp 2) []).ret = failDiskOp 2 :=
  ⟨by decide, (byte_order_inverse (failDiskOp 2) (by decide)).1,
   (byte_order_inverse (failDiskOp 2) (by decide)).2 envEchoFail 3 [] (by decide) (by decide)
     (by decide)⟩

/-! ## The word of the fail-disk operation -/

theorem exchange_buf_zero (env : Env) (fd : Int) (op : Nat) (buf : List Nat) (rt : Nat)
    (tr : List IOCall) : (exchange env fd op buf rt 0 tr).buf = buf := by
  unfold exchange
  split_ifs <;> simp [memcpy]

/-- A request other than INIT is the exchange on the global socket. -/
theorem client_of_not_init (env : Env) (sckt : Int) (op : Nat) (buf : List Nat)
    (hop : op < 2 ^ 64) (hni : op / 2 ^ 56 % 256 ≠ 0) :
    client_raid_bus_request env sckt op buf =
      exchange env sckt op buf (op >>> SHIFT_FOR_REQUEST) (op / 2 ^ 48 % 256 * 1024) [] := by
  unfold client_raid_bus_request
  simp only [requestType_eq op hop, blks_eq, hni, RAID_INIT, if_false, RAID_BLOCK_SIZE]

/-- C14: for every disk id `d` in 0..255 the word `(RAID_DISKFAIL << 56) | (d << 40)` built
by `remote_raid_fail_disk` extracts, under the shift-and-mask accessors, to request type 7,
block count 0, disk id `d`, unused bits 0, status 0 and block id 0; the payload length
`client_raid_bus_request` computes for it is 0, the buffer it is given is left as it was,
the payload write carries no byte and the payload read asks for none. -/
theorem fail_disk_word_fields (d : Nat) (hd : d < 256) :
    failDiskOp d >>> SHIFT_FOR_REQUEST = RAID_DISKFAIL ∧
    fieldReqType (failDiskOp d) = 7 ∧
    fieldBlocks (failDiskOp d) = 0 ∧
    fieldDiskId (failDiskOp d) = d ∧
    fieldUnused (failDiskOp d) = 0 ∧
    fieldStatus (failDiskOp d) = 0 ∧
    fieldBlockId (failDiskOp d) = 0 ∧
    fieldBlocks (failDiskOp d) * RAID_BLOCK_SIZE = 0 ∧
    ∀ (env : Env) (sckt : Int),
      (client_raid_bus_request env sckt (failDiskOp d) []).buf = [] ∧
      transfers (client_raid_bus_request env sckt (failDiskOp d) []).trace <+:
        [IOCall.write sckt (beBytes64 (failDiskOp d)) env.write1,
         IOCall.write sckt (beBytes64 0) env.write2,
         IOCall.write sckt [] env.write3,
         IOCall.read sckt 8 env.read1,
         IOCall.read sckt 8 env.read2,
         IOCall.read sckt 0 env.read3] := by
  have h := failDiskOp_eq d hd
  have hop : failDiskOp d < 2 ^ 64 := by rw [h]; omega
  have hrt : failDiskOp d / 2 ^ 56 % 256 = 7 := by rw [h]; omega
  have hbl : failDiskOp d / 2 ^ 48 % 256 = 0 := by rw [h]; omega
  have hblocks : fieldBlocks (failDiskOp d) = 0 := by rw [fieldBlocks, blks_eq, hbl]
  refine ⟨?_, ?_, hblocks, ?_, ?_, ?_, ?_, ?_, ?_⟩
  · rw [requestType_eq _ hop, hrt]; rfl
  · rw [fieldReqType_eq, hrt]
  · rw [fieldDiskId_eq, h]; omega
  · rw [fieldUnused, Nat.shiftRight_eq_div_pow, show (0x7f : Nat) = 2 ^ 7 - 1 from rfl,
      Nat.and_pow_two_sub_one_eq_mod, h]
    omega
  · rw [fieldStatus, Nat.shiftRight_eq_div_pow, show (0x1 : Nat) = 2 ^ 1 - 1 from rfl,
      Nat.and_pow_two_sub_one_eq_mod, h]
    omega
  · rw [fieldBlockId, show (0xffffffff : Nat) = 2 ^ 32 - 1 from rfl,
      Nat.and_pow_two_sub_one_eq_mod, h]
    omega
  · rw [hblocks, Nat.zero_mul]
  · intro env sckt
    have hni : failDiskOp d / 2 ^ 56 % 256 ≠ 0 := by rw [hrt]; decide
    have hpl : payloadLen (failDiskOp d) = 0 := by
      rw [payloadLen, if_neg hni, hbl]
    constructor
    · rw [client_of_not_init env sckt _ [] hop hni, hbl]
      exact exchange_buf_zero env sckt _ [] _ []
    · have hp := transfers_prefix env sckt (failDiskOp d) [] hop
      have hsix : sixTransfers env sckt (failDiskOp d) [] =
          [IOCall.write sckt (beBytes64 (failDiskOp d)) env.write1,
           IOCall.write sckt (beBytes64 0) env.write2,
           IOCall.write sckt [] env.write3,
           IOCall.read sckt 8 env.read1,
           IOCall.read sckt 8 env.read2,
           IOCall.read sckt 0 env.read3] := by
        simp only [sixTransfers, socketOf, if_neg hni, hpl, List.take_nil]
      rw [hsix] at hp
      exact hp

/-- Witness for C14: disk 2. -/
theorem fail_disk_word_fields_witness :
    (2 : Nat) < 256 ∧ failDiskOp 2 = 0x0700020000000000 ∧
    fieldReqType (failDiskOp 2) = 7 ∧ fieldBlocks (failDiskOp 2) = 0 ∧
    fieldDiskId (failDiskOp 2) = 2 :=
  ⟨by decide, by decide, (fail_disk_word_fields 2 (by decide)).2.1,
   (fail_disk_word_fields 2 (by decide)).2.2.1, (fail_disk_word_fields 2 (by decide)).2.2.2.1⟩

end TaglineDriver
